import Mathlib

/-! # Stream decoding in `pdf/pdfstream.go`

A shallow embedding of `(*PdfParser).decodeStream`: the FlateDecode branch with its
TIFF (Predictor 2) and PNG (Predictor 10..15) row predictors, and the ASCIIHexDecode branch.

Conventions of the embedding.

* A Go `byte` is a `Fin 256`; byte addition is written out with its `% 256`.
* A Go `int` / `PdfObjectInteger` is a 64-bit two's-complement integer: values are `Int`s in
  range and every arithmetic result that can leave the range goes through `wrapInt`.
  `len(..)` and the slice bounds computed from it never leave the range and are exact.
* A run ends in returned bytes, in a returned error (`return nil, err`), or in a run-time
  panic (failed type assertion, integer division by zero, index out of range, `make` with a
  length out of range); the three are kept apart in `Result`.
* `compress/zlib` and the helper `isWhiteSpace` are not part of the file and are parameters.
-/

namespace Pdf

/-! ## Machine values -/

/-- A Go `byte`. -/
abbrev Byte := Fin 256

/-- The expression `byte(int(a+b) % 256)` on two bytes: the byte sum wraps, the `int`
remainder and the conversion back leave it as it is. -/
def addByte (a b : Byte) : Byte :=
  ⟨((a.val + b.val) % 256) % 256, Nat.mod_lt _ (by decide)⟩

/-- Smallest value of a 64-bit signed integer. -/
def minInt : Int := -9223372036854775808

/-- Largest value of a 64-bit signed integer. -/
def maxInt : Int := 9223372036854775807

/-- The largest length of a byte slice that `make` accepts in the 64-bit Go runtime
(`maxAlloc`, `1 << 48` bytes): `makeslice` panics with `len out of range` for a negative
length and for a length above this bound. Running out of memory below the bound is not
modelled. -/
def maxAlloc : Int := 281474976710656

/-- Two's-complement wrap-around of an exact integer result to 64 bits. -/
def wrapInt (x : Int) : Int :=
  (x + 9223372036854775808) % 18446744073709551616 - 9223372036854775808

/-- The type `PdfObjectInteger` (an `int64`). -/
abbrev PdfObjectInteger := { n : Int // minInt ≤ n ∧ n ≤ maxInt }

/-! ## Objects -/

/-- The objects a dictionary entry can hold, as far as `decodeStream` tells them apart:
names, integers, dictionaries, and every other kind of object. -/
inductive PdfObject where
  | Name (s : String)
  | Integer (n : PdfObjectInteger)
  | Dictionary (entries : List (String × PdfObject))
  | Other

/-- The type `PdfObjectDictionary`, a map from names to objects. -/
abbrev PdfObjectDictionary := List (String × PdfObject)

/-- Map indexing `d[key]`; `none` is the nil interface value of an absent key. -/
def PdfObjectDictionary.get (d : PdfObjectDictionary) (key : String) : Option PdfObject :=
  List.lookup key d

/-- The type assertion `x.(*PdfObjectName)`; `none` when it does not hold. -/
def asName : Option PdfObject → Option String
  | some (.Name s) => some s
  | _ => none

/-- The type assertion `x.(*PdfObjectInteger)`; `none` when it does not hold. -/
def asInteger : Option PdfObject → Option PdfObjectInteger
  | some (.Integer n) => some n
  | _ => none

/-- The type assertion `x.(*PdfObjectDictionary)`; `none` when it does not hold. -/
def asDictionary : Option PdfObject → Option PdfObjectDictionary
  | some (.Dictionary d) => some d
  | _ => none

/-- The type `PdfObjectStream`: the stream dictionary and the raw bytes. -/
structure PdfObjectStream where
  PdfObjectDictionary : PdfObjectDictionary
  Stream : List Byte

/-! ## Outcomes -/

/-- Errors of `compress/zlib`. -/
inductive ZlibError where
  | header
  | dictionary
  | checksum
  | unexpectedEOF
  | corruptInput (offset : Nat)
  deriving DecidableEq, Repr

/-- Errors of `encoding/hex`. -/
inductive HexError where
  | invalidByte (b : Byte)
  | errLength
  deriving DecidableEq, Repr

/-- The error values `decodeStream` returns. -/
inductive DecodeError where
  | invalidBitsPerComponent
  | only8BitsSupported
  | zlib (e : ZlibError)
  | predictorColumnMissing
  | invalidRowLength (len rowLength : Int)
  | invalidRowLengthForColors (rowLength colors : Int)
  | invalidFilterByte (fb : Byte)
  | unsupportedPredictor (predictor : Int)
  | eof
  | invalidAsciiHexCharacter (b : Byte)
  | hex (e : HexError)
  | unsupportedEncodingMethod
  deriving DecidableEq, Repr

/-- Run-time panics. -/
inductive Panic where
  | typeAssertion
  | divideByZero
  | indexOutOfRange
  | sliceOutOfRange
  | makeNegativeLen
  | makeLenTooLarge
  deriving DecidableEq, Repr

/-- The ways a call does not return bytes. -/
inductive Failure where
  | error (e : DecodeError)
  | panic (p : Panic)
  deriving DecidableEq, Repr

/-- The outcome of `decodeStream`. -/
abbrev Result := Except Failure (List Byte)

instance : DecidableEq Result := fun a b =>
  match a, b with
  | .ok x, .ok y => if h : x = y then isTrue (by rw [h]) else isFalse (fun e => h (by cases e; rfl))
  | .error x, .error y =>
    if h : x = y then isTrue (by rw [h]) else isFalse (fun e => h (by cases e; rfl))
  | .ok _, .error _ => isFalse (fun e => by cases e)
  | .error _, .ok _ => isFalse (fun e => by cases e)

/-! ## Slices -/

/-- The index expression `row[j]`; `none` when `j` is out of range. -/
def index (row : List Byte) (j : Int) : Option Byte :=
  if 0 ≤ j then row.get? j.toNat else none

/-- The slice expression `data[lo:hi]`; `none` when the bounds are out of range. The upper
bound is checked against the length: the capacity of the Go slice may be larger, but the
bounds the row loops compute never exceed the length (`slice_eq_rowAt`). -/
def slice (data : List Byte) (lo hi : Int) : Option (List Byte) :=
  if 0 ≤ lo ∧ lo ≤ hi ∧ hi ≤ (data.length : Int) then
    some ((data.drop lo.toNat).take (hi.toNat - lo.toNat))
  else none

/-- The effect on `data` of having overwritten the slice that starts at `lo` with `row`
(a slice shares its array with `data`). -/
def writeBack (data : List Byte) (lo : Nat) (row : List Byte) : List Byte :=
  data.take lo ++ row ++ data.drop (lo + row.length)

/-! ## Row loops -/

/-- The loop `for j := ..; j < rowLength; j++ { rowData[j] = byte(int(rowData[j]+rowData[j-d]) % 256) }`
with `n` iterations left, used by the TIFF predictor (`d = colors`) and PNG Sub (`d = 1`). -/
def leftLoop (d : Int) : Nat → Int → List Byte → Except Panic (List Byte)
  | 0, _, rowData => .ok rowData
  | n + 1, j, rowData =>
    match index rowData j, index rowData (j - d) with
    | some a, some b => leftLoop d n (j + 1) (rowData.set j.toNat (addByte a b))
    | _, _ => .error .indexOutOfRange

/-- The loop `for j := 1; j < rowLength; j++ { rowData[j] = byte(int(rowData[j]+prevRowData[j]) % 256) }`
with `n` iterations left. -/
def upLoop (prevRowData : List Byte) : Nat → Int → List Byte → Except Panic (List Byte)
  | 0, _, rowData => .ok rowData
  | n + 1, j, rowData =>
    match index rowData j, index prevRowData j with
    | some a, some b => upLoop prevRowData n (j + 1) (rowData.set j.toNat (addByte a b))
    | _, _ => .error .indexOutOfRange

/-- The loop `for i := 0; i < rowLength; i++ { prevRowData[i] = rowData[i] }`
with `n` iterations left. -/
def copyLoop (rowData : List Byte) : Nat → Int → List Byte → Except Panic (List Byte)
  | 0, _, prevRowData => .ok prevRowData
  | n + 1, i, prevRowData =>
    match index rowData i with
    | some a =>
      if 0 ≤ i ∧ i < (prevRowData.length : Int) then
        copyLoop rowData n (i + 1) (prevRowData.set i.toNat a)
      else .error .indexOutOfRange
    | none => .error .indexOutOfRange

/-! ## TIFF predictor (Predictor 2) -/

/-- The row loop `for i := 0; i < rows; i++` of the TIFF branch with `n` iterations left:
`outData` is the decompressed buffer as modified so far, `pOutBuffer` the bytes written. -/
def tiffRows (rowLength colors : Int) :
    Nat → Int → List Byte → List Byte → Except Failure (List Byte)
  | 0, _, _, pOutBuffer => .ok pOutBuffer
  | n + 1, i, outData, pOutBuffer =>
    match slice outData (rowLength * i) (rowLength * (i + 1)) with
    | none => .error (.panic .sliceOutOfRange)
    | some rowData =>
      match leftLoop colors (rowLength - colors).toNat colors rowData with
      | .error p => .error (.panic p)
      | .ok rowData' =>
        tiffRows rowLength colors n (i + 1)
          (writeBack outData (rowLength * i).toNat rowData') (pOutBuffer ++ rowData')

/-- The TIFF branch after `Columns` and `Colors` have been read. -/
def tiffPredictor (columns colors : Int) (outData : List Byte) : Result :=
  let rowLength := wrapInt (columns * colors)
  if rowLength = 0 then .error (.panic .divideByZero)
  else
    let rows := Int.tdiv outData.length rowLength
    if Int.tmod outData.length rowLength ≠ 0 then
      .error (.error (.invalidRowLength outData.length rowLength))
    else if colors = 0 then .error (.panic .divideByZero)
    else if Int.tmod rowLength colors ≠ 0 then
      .error (.error (.invalidRowLengthForColors rowLength colors))
    else tiffRows rowLength colors rows.toNat 0 outData []

/-! ## PNG predictors (Predictor 10..15) -/

/-- The `switch fb` of the PNG branch on one row. -/
def pngFilter (rowLength : Int) (prevRowData rowData : List Byte) (fb : Byte) :
    Except Failure (List Byte) :=
  if fb = 0 then .ok rowData
  else if fb = 1 then
    match leftLoop 1 (rowLength - 2).toNat 2 rowData with
    | .error p => .error (.panic p)
    | .ok r => .ok r
  else if fb = 2 then
    match upLoop prevRowData (rowLength - 1).toNat 1 rowData with
    | .error p => .error (.panic p)
    | .ok r => .ok r
  else .error (.error (.invalidFilterByte fb))

/-- The row loop `for i := 0; i < rows; i++` of the PNG branch with `n` iterations left. -/
def pngRows (rowLength : Int) :
    Nat → Int → List Byte → List Byte → List Byte → Except Failure (List Byte)
  | 0, _, _, _, pOutBuffer => .ok pOutBuffer
  | n + 1, i, outData, prevRowData, pOutBuffer =>
    match slice outData (rowLength * i) (rowLength * (i + 1)) with
    | none => .error (.panic .sliceOutOfRange)
    | some rowData =>
      match index rowData 0 with
      | none => .error (.panic .indexOutOfRange)
      | some fb =>
        match pngFilter rowLength prevRowData rowData fb with
        | .error f => .error f
        | .ok rowData' =>
          match copyLoop rowData' rowLength.toNat 0 prevRowData with
          | .error p => .error (.panic p)
          | .ok prevRowData' =>
            match slice rowData' 1 rowData'.length with
            | none => .error (.panic .sliceOutOfRange)
            | some data =>
              pngRows rowLength n (i + 1)
                (writeBack outData (rowLength * i).toNat rowData') prevRowData'
                (pOutBuffer ++ data)

/-- The PNG branch after `Columns` has been read. -/
def pngPredictor (columns : Int) (outData : List Byte) : Result :=
  let rowLength := wrapInt (columns + 1)
  if rowLength = 0 then .error (.panic .divideByZero)
  else
    let rows := Int.tdiv outData.length rowLength
    if Int.tmod outData.length rowLength ≠ 0 then
      .error (.error (.invalidRowLength outData.length rowLength))
    else if rowLength < 0 then .error (.panic .makeNegativeLen)
    else if maxAlloc < rowLength then .error (.panic .makeLenTooLarge)
    else
      pngRows rowLength rows.toNat 0 outData (List.replicate rowLength.toNat 0) []

/-! ## FlateDecode -/

/-- The interface of `compress/zlib` that `decodeStream` uses on the stream bytes:
`newReader` is the header check of `zlib.NewReader` (`none`: a reader was made), `readFrom`
is `outBuf.ReadFrom(r)`: the bytes read into the buffer and the error it stopped with. -/
structure Zlib where
  newReader : List Byte → Option ZlibError
  readFrom : List Byte → List Byte × Option ZlibError

/-- The block `if hasDecodeParams { .. }`: reads `Predictor` and checks `BitsPerComponent`. -/
def readPredictor (decodeParams : PdfObjectDictionary) : Except Failure Int :=
  match asInteger (decodeParams.get "Predictor") with
  | none => .error (.panic .typeAssertion)
  | some predictor =>
    match decodeParams.get "BitsPerComponent" with
    | none => .ok predictor.val
    | some obits =>
      match asInteger (some obits) with
      | none => .error (.error .invalidBitsPerComponent)
      | some pbits =>
        if pbits.val ≠ 8 then .error (.error .only8BitsSupported) else .ok predictor.val

/-- The variable `colors` of the TIFF branch: `1` unless `Colors` is an integer entry. -/
def readColors (decodeParams : PdfObjectDictionary) : Int :=
  match asInteger (decodeParams.get "Colors") with
  | some pcolors => pcolors.val
  | none => 1

/-- The block `if hasDecodeParams && predictor != 1 { .. }`. -/
def reversePredictor (decodeParams : PdfObjectDictionary) (predictor : Int)
    (outData : List Byte) : Result :=
  if predictor = 2 then
    match asInteger (decodeParams.get "Columns") with
    | none => .error (.error .predictorColumnMissing)
    | some columns => tiffPredictor columns.val (readColors decodeParams) outData
  else if 10 ≤ predictor ∧ predictor ≤ 15 then
    match asInteger (decodeParams.get "Columns") with
    | none => .error (.error .predictorColumnMissing)
    | some columns => pngPredictor columns.val outData
  else .error (.error (.unsupportedPredictor predictor))

/-- The branch `*method == "FlateDecode"`. -/
def flateDecode (zlib : Zlib) (obj : PdfObjectStream) : Result :=
  let decodeParams := asDictionary (obj.PdfObjectDictionary.get "DecodeParms")
  let predictor : Except Failure Int :=
    match decodeParams with
    | some d => readPredictor d
    | none => .ok 1
  match predictor with
  | .error f => .error f
  | .ok predictor =>
    match zlib.newReader obj.Stream with
    | some err => .error (.error (.zlib err))
    | none =>
      let outData := (zlib.readFrom obj.Stream).1
      match decodeParams with
      | some d => if predictor ≠ 1 then reversePredictor d predictor outData else .ok outData
      | none => .ok outData

/-! ## ASCIIHexDecode -/

/-- The test `(b >= 'a' && b <= 'f') || (b >= 'A' && b <= 'F') || (b >= '0' && b <= '9')`. -/
def isHexDigit (b : Byte) : Bool :=
  (97 ≤ b.val && b.val ≤ 102) || (65 ≤ b.val && b.val ≤ 70) || (48 ≤ b.val && b.val ≤ 57)

/-- The read loop of the ASCIIHexDecode branch: `rest` is what the reader has left,
`inb` the digits gathered. -/
def hexRead (isWhiteSpace : Byte → Bool) : List Byte → List Byte → Except DecodeError (List Byte)
  | [], _ => .error .eof
  | b :: rest, inb =>
    if b.val = 62 then .ok inb
    else if isWhiteSpace b then hexRead isWhiteSpace rest inb
    else if isHexDigit b then hexRead isWhiteSpace rest (inb ++ [b])
    else .error (.invalidAsciiHexCharacter b)

/-- The function `fromHexChar` of `encoding/hex`. -/
def fromHexChar (c : Byte) : Option Byte :=
  if 48 ≤ c.val ∧ c.val ≤ 57 then some (Fin.ofNat (c.val - 48))
  else if 97 ≤ c.val ∧ c.val ≤ 102 then some (Fin.ofNat (c.val - 97 + 10))
  else if 65 ≤ c.val ∧ c.val ≤ 70 then some (Fin.ofNat (c.val - 65 + 10))
  else none

/-- The function `hex.Decode` of `encoding/hex` on the source bytes: pairs are decoded in
order as `(a << 4) | b`, the first invalid byte or a trailing odd byte is an error. -/
def hexDecode : List Byte → Except HexError (List Byte)
  | [] => .ok []
  | [p] => if fromHexChar p = none then .error (.invalidByte p) else .error .errLength
  | p :: q :: rest =>
    match fromHexChar p with
    | none => .error (.invalidByte p)
    | some a =>
      match fromHexChar q with
      | none => .error (.invalidByte q)
      | some b =>
        match hexDecode rest with
        | .error e => .error e
        | .ok out => .ok (Fin.ofNat (((a.val <<< 4) % 256) ||| b.val) :: out)

/-- The branch `*method == "ASCIIHexDecode"`. -/
def asciiHexDecode (isWhiteSpace : Byte → Bool) (stream : List Byte) : Result :=
  match hexRead isWhiteSpace stream [] with
  | .error e => .error (.error e)
  | .ok inb =>
    let inb := if inb.length % 2 = 1 then inb ++ [(48 : Byte)] else inb
    match hexDecode inb with
    | .error e => .error (.error (.hex e))
    | .ok outb => .ok outb

/-! ## The entry point -/

/-- The method `decodeStream`. -/
def decodeStream (zlib : Zlib) (isWhiteSpace : Byte → Bool) (obj : PdfObjectStream) : Result :=
  match asName (obj.PdfObjectDictionary.get "Filter") with
  | none => .error (.panic .typeAssertion)
  | some method =>
    if method = "FlateDecode" then flateDecode zlib obj
    else if method = "ASCIIHexDecode" then asciiHexDecode isWhiteSpace obj.Stream
    else .error (.error .unsupportedEncodingMethod)

/-! ## Rows and pure row functions -/
/-- Row `i` of a buffer cut into rows of `w` bytes: `data[w*i : w*(i+1)]`. -/
def rowAt (w : Nat) (data : List Byte) (i : Nat) : List Byte :=
  (data.drop (w * i)).take w

/-- The result of the left-neighbour loop with stride `d` once the bytes `done` are final:
each byte of `todo` in turn receives the byte `d` places to its left. -/
def sumLeft (d : Nat) : List Byte → List Byte → List Byte
  | done, [] => done
  | done, a :: todo => sumLeft d (done ++ [addByte a (done.getD (done.length - d) 0)]) todo
/-- The TIFF reconstruction of one row with `c` interleaved colours. -/
def tiffRow (c : Nat) (row : List Byte) : List Byte :=
  sumLeft c (row.take c) (row.drop c)

/-! ## Streams and parameters named in the statements -/

/-- The stream `obj` has `Filter` `FlateDecode` and a `DecodeParms` dictionary `parms`, and
its bytes pass the zlib header check and decompress to `outData`. -/
def FlateStream (zlib : Zlib) (obj : PdfObjectStream) (parms : PdfObjectDictionary)
    (outData : List Byte) : Prop :=
  asName (obj.PdfObjectDictionary.get "Filter") = some "FlateDecode"
    ∧ asDictionary (obj.PdfObjectDictionary.get "DecodeParms") = some parms
    ∧ zlib.newReader obj.Stream = none
    ∧ (zlib.readFrom obj.Stream).1 = outData

/-- The dictionary `parms` has the integer `Predictor` `p`, and `BitsPerComponent` is absent
or the integer 8. -/
def HasPredictor (parms : PdfObjectDictionary) (p : Int) : Prop :=
  (asInteger (parms.get "Predictor")).map Subtype.val = some p
    ∧ ((parms.get "BitsPerComponent").isNone = true
      ∨ (asInteger (parms.get "BitsPerComponent")).map Subtype.val = some 8)

/-- The byte `(a - b) mod 256`. -/
def subByte (a b : Byte) : Byte :=
  ⟨(a.val + 256 - b.val) % 256, Nat.mod_lt _ (by decide)⟩

/-- Forward differencing of a buffer in rows of `columns` bytes (the TIFF encoding for one
colour): the first byte of a row is kept, every other byte has its left neighbour subtracted. -/
def tiffEncode (columns : Nat) (d : List Byte) : List Byte :=
  (List.range d.length).map fun m =>
    if m % columns = 0 then d.getD m 0 else subByte (d.getD m 0) (d.getD (m - 1) 0)

/-! ## Concrete inputs -/

/-- A stand-in for zlib under which every stream passes the header check and is its own
decompression. -/
def storedZlib : Zlib :=
  ⟨fun _ => none, fun s => (s, none)⟩

/-- The white-space characters of PDF: NUL, TAB, LF, FF, CR and SPACE. -/
def pdfWhiteSpace (b : Byte) : Bool :=
  b.val = 0 || b.val = 9 || b.val = 10 || b.val = 12 || b.val = 13 || b.val = 32

/-- A FlateDecode stream object with the given `DecodeParms` and bytes. -/
def flateObject (parms : PdfObjectDictionary) (stream : List Byte) : PdfObjectStream :=
  ⟨[("Filter", .Name "FlateDecode"), ("DecodeParms", .Dictionary parms)], stream⟩

/-- The parameters `Predictor 2`, `Columns 4`. -/
def tiffParms : PdfObjectDictionary :=
  [("Predictor", .Integer ⟨2, by decide⟩), ("Columns", .Integer ⟨4, by decide⟩)]

/-- The parameters `Predictor 2`, `Columns 2`, `Colors 2`. -/
def tiffParms2 : PdfObjectDictionary :=
  [("Predictor", .Integer ⟨2, by decide⟩), ("Columns", .Integer ⟨2, by decide⟩),
    ("Colors", .Integer ⟨2, by decide⟩)]

/-- The parameters `Predictor 2`, `Columns 4294967296`, `Colors 4294967296`. -/
def tiffParmsOverflow : PdfObjectDictionary :=
  [("Predictor", .Integer ⟨2, by decide⟩), ("Columns", .Integer ⟨4294967296, by decide⟩),
    ("Colors", .Integer ⟨4294967296, by decide⟩)]

/-- The parameters `Predictor 12`, `Columns 3`. -/
def pngParms : PdfObjectDictionary :=
  [("Predictor", .Integer ⟨12, by decide⟩), ("Columns", .Integer ⟨3, by decide⟩)]

/-- The parameters `Predictor 15`, `Columns 3`. -/
def pngParms15 : PdfObjectDictionary :=
  [("Predictor", .Integer ⟨15, by decide⟩), ("Columns", .Integer ⟨3, by decide⟩)]

/-- The parameters `Predictor 12`, `Columns 9223372036854775807`. -/
def pngParmsMax : PdfObjectDictionary :=
  [("Predictor", .Integer ⟨12, by decide⟩),
    ("Columns", .Integer ⟨9223372036854775807, by decide⟩)]

/-- The parameters `Predictor 12`, `Columns 4611686018427387904` (`2^62`). -/
def pngParmsHuge : PdfObjectDictionary :=
  [("Predictor", .Integer ⟨12, by decide⟩),
    ("Columns", .Integer ⟨4611686018427387904, by decide⟩)]

/-- Four PNG rows of three data bytes, tagged Up, Sub, Up, None. -/
def pngSample : List Byte :=
  [2, 1, 2, 3, 1, 1, 1, 1, 2, 1, 1, 1, 0, 9, 9, 9]

/-- A second buffer that agrees with `pngSample` on rows 1, 2 and 3 only. -/
def pngSample2 : List Byte :=
  [0, 7, 7, 7, 1, 1, 1, 1, 2, 1, 1, 1, 0, 9, 9, 9]

/-- Three PNG rows of three data bytes, all tagged None. -/
def pngSampleNone : List Byte :=
  [0, 1, 2, 3, 0, 4, 5, 6, 0, 7, 8, 9]

/-- Two PNG rows of three data bytes, the second tagged 3 (Average). -/
def pngSampleBad : List Byte :=
  [0, 1, 2, 3, 3, 4, 5, 6]

/-! ## PNG rows -/

/-- The standard PNG Sub reconstruction for one byte per pixel, given the reconstructed byte
`left` to the left of the first one: every byte is the encoded byte plus its reconstructed
left neighbour. -/
def standardSubFrom (left : Byte) : List Byte → List Byte
  | [] => []
  | x :: xs => addByte x left :: standardSubFrom (addByte x left) xs

/-- The standard PNG Sub reconstruction of a row of data bytes: the predecessor of the first
byte is zero. -/
def standardSub (dataBytes : List Byte) : List Byte :=
  standardSubFrom 0 dataBytes

/-- The reconstruction of one PNG row `row` (tag byte and data bytes), given the
reconstructed data bytes `up` of the row above; the tag byte stays in place. -/
def pngFull (up row : List Byte) : List Byte :=
  if row.getD 0 0 = 0 then row
  else if row.getD 0 0 = 1 then sumLeft 1 (row.take 2) (row.drop 2)
  else row.take 1 ++ List.zipWith addByte (row.drop 1) up

/-- The data bytes above row `r` of the PNG output `out` in rows of `n` bytes: zeros above
the first row. -/
def rowAbove (n : Nat) (out : List Byte) (r : Nat) : List Byte :=
  if r = 0 then List.replicate n 0 else rowAt n out (r - 1)

/-! ## ASCII hex: the digits of a stream and their value -/

/-- The bytes of a stream before its first `>` (all of them if there is none). -/
def beforeTerminator (stream : List Byte) : List Byte :=
  stream.takeWhile fun b => b.val != 62

/-- A byte that is neither a hex digit nor white space. -/
def isInvalidHexByte (isWhiteSpace : Byte → Bool) (b : Byte) : Bool :=
  !isHexDigit b && !isWhiteSpace b

/-- The value of a hex digit, upper or lower case. -/
def hexValue (b : Byte) : Nat :=
  if 48 ≤ b.val ∧ b.val ≤ 57 then b.val - 48
  else if 97 ≤ b.val ∧ b.val ≤ 102 then b.val - 97 + 10
  else if 65 ≤ b.val ∧ b.val ≤ 70 then b.val - 65 + 10
  else 0

/-- Pairwise decoding of a digit sequence, high nibble first. -/
def decodePairs : List Byte → List Byte
  | hi :: lo :: rest => Fin.ofNat (16 * hexValue hi + hexValue lo) :: decodePairs rest
  | _ => []

/-- A digit sequence with one `0` digit appended if its length is odd. -/
def padOdd (digits : List Byte) : List Byte :=
  if digits.length % 2 = 1 then digits ++ [(48 : Byte)] else digits

/-- An ASCIIHexDecode stream object with the given bytes. -/
def hexObject (stream : List Byte) : PdfObjectStream :=
  ⟨[("Filter", .Name "ASCIIHexDecode")], stream⟩

/-! ## More concrete inputs -/

/-- A stand-in for zlib on a stream with a damaged trailer: the header check passes, and
the body read yields the stream bytes and then stops with a checksum error. -/
def checksumZlib : Zlib :=
  ⟨fun _ => none, fun s => (s, some .checksum)⟩

/-- A FlateDecode stream object without `DecodeParms`. -/
def plainFlateObject (stream : List Byte) : PdfObjectStream :=
  ⟨[("Filter", .Name "FlateDecode")], stream⟩

/-- The parameters `Predictor 1`, `Columns 0`, `Colors 0`, `BitsPerComponent 8`. -/
def predictor1Parms : PdfObjectDictionary :=
  [("Predictor", .Integer ⟨1, by decide⟩), ("Columns", .Integer ⟨0, by decide⟩),
    ("Colors", .Integer ⟨0, by decide⟩), ("BitsPerComponent", .Integer ⟨8, by decide⟩)]

/-- The parameters `Predictor 1`, `BitsPerComponent 4`. -/
def predictor1Bits4 : PdfObjectDictionary :=
  [("Predictor", .Integer ⟨1, by decide⟩), ("BitsPerComponent", .Integer ⟨4, by decide⟩)]

/-- The parameters `Predictor 12`, `Columns 3`, `BitsPerComponent 4`. -/
def pngParmsBits4 : PdfObjectDictionary :=
  [("Predictor", .Integer ⟨12, by decide⟩), ("Columns", .Integer ⟨3, by decide⟩),
    ("BitsPerComponent", .Integer ⟨4, by decide⟩)]

/-- The parameters `Columns 4` alone: no `Predictor` entry. -/
def parmsNoPredictor : PdfObjectDictionary :=
  [("Columns", .Integer ⟨4, by decide⟩)]

/-- The parameters with a `Predictor` that is a name, not an integer. -/
def parmsPredictorName : PdfObjectDictionary :=
  [("Predictor", .Name "None")]

/-- The parameters `Predictor 2`, `Columns 0`. -/
def tiffParmsZero : PdfObjectDictionary :=
  [("Predictor", .Integer ⟨2, by decide⟩), ("Columns", .Integer ⟨0, by decide⟩)]

/-- The parameters `Predictor 2`, `Columns -1`. -/
def tiffParmsNeg : PdfObjectDictionary :=
  [("Predictor", .Integer ⟨2, by decide⟩), ("Columns", .Integer ⟨-1, by decide⟩)]

/-- The parameters `Predictor 2`, `Columns -2`, `Colors -1`. -/
def tiffParmsNegColors : PdfObjectDictionary :=
  [("Predictor", .Integer ⟨2, by decide⟩), ("Columns", .Integer ⟨-2, by decide⟩),
    ("Colors", .Integer ⟨-1, by decide⟩)]

/-- The parameters `Predictor 12`, `Columns -1`. -/
def pngParmsNeg1 : PdfObjectDictionary :=
  [("Predictor", .Integer ⟨12, by decide⟩), ("Columns", .Integer ⟨-1, by decide⟩)]

/-- The parameters `Predictor 12`, `Columns -2`. -/
def pngParmsNeg2 : PdfObjectDictionary :=
  [("Predictor", .Integer ⟨12, by decide⟩), ("Columns", .Integer ⟨-2, by decide⟩)]

/-- The parameters `Predictor 3`, `Columns 3`. -/
def parmsPredictor3 : PdfObjectDictionary :=
  [("Predictor", .Integer ⟨3, by decide⟩), ("Columns", .Integer ⟨3, by decide⟩)]
/-! ## The row loops compute the pure row functions -/

theorem addByte_val (a b : Byte) : (addByte a b).val = (a.val + b.val) % 256 := by
  simp [addByte]

theorem addByte_zero (a : Byte) : addByte a 0 = a := by
  apply Fin.ext
  simp [addByte_val, Nat.mod_eq_of_lt a.isLt]

theorem index_natCast (row : List Byte) (m : Nat) : index row (m : Int) = row[m]? := by
  simp [index]

theorem index_sub_natCast (row : List Byte) (m d : Nat) (h : d ≤ m) :
    index row ((m : Int) - (d : Int)) = row[m - d]? := by
  have e : ((m : Int) - (d : Int)) = ((m - d : Nat) : Int) := by omega
  rw [e, index_natCast]

theorem leftLoop_eq (d : Nat) (hd : 1 ≤ d) :
    ∀ (todo done : List Byte), d ≤ done.length →
      leftLoop (d : Int) todo.length (done.length : Int) (done ++ todo)
        = .ok (sumLeft d done todo) := by
  intro todo
  induction todo with
  | nil => intro done _; simp [leftLoop, sumLeft]
  | cons a t ih =>
    intro done hlen
    have h1 : index (done ++ a :: t) (done.length : Int) = some a := by
      rw [index_natCast, List.getElem?_append_right (le_refl _)]; simp
    have h2 : index (done ++ a :: t) ((done.length : Int) - (d : Int))
        = some (done.getD (done.length - d) 0) := by
      rw [index_sub_natCast _ _ _ hlen, List.getElem?_append_left (by omega)]
      rw [List.getD_eq_getElem?_getD, List.getElem?_eq_getElem (by omega)]
      simp
    have h3 : (done ++ a :: t).set (done.length : Int).toNat
        (addByte a (done.getD (done.length - d) 0))
        = (done ++ [addByte a (done.getD (done.length - d) 0)]) ++ t := by
      simp [List.set_append]
    have h4 : ((done.length : Int) + 1)
        = (((done ++ [addByte a (done.getD (done.length - d) 0)]).length : Nat) : Int) := by
      simp
    simp only [List.length_cons, leftLoop, h1, h2, sumLeft]
    rw [h3, h4]
    exact ih _ (by simp; omega)


theorem sumLeft_length (d : Nat) : ∀ (todo done : List Byte),
    (sumLeft d done todo).length = done.length + todo.length := by
  intro todo
  induction todo with
  | nil => intro done; simp [sumLeft]
  | cons a t ih => intro done; simp [sumLeft, ih]; omega

theorem sumLeft_take (d : Nat) : ∀ (todo done : List Byte),
    (sumLeft d done todo).take done.length = done := by
  intro todo
  induction todo with
  | nil => intro done; simp [sumLeft]
  | cons a t ih =>
    intro done
    have h := ih (done ++ [addByte a (done.getD (done.length - d) 0)])
    have h2 := congrArg (List.take done.length) h
    rw [List.take_take] at h2
    simpa [sumLeft] using h2

theorem getD_of_take_eq {R done : List Byte} (h : R.take done.length = done) (m : Nat)
    (hm : m < done.length) : R.getD m 0 = done.getD m 0 := by
  rw [List.getD_eq_getElem?_getD, List.getD_eq_getElem?_getD]
  have : (R.take done.length)[m]? = done[m]? := by rw [h]
  rw [List.getElem?_take] at this
  simp only [hm, if_true] at this
  rw [this]

theorem sumLeft_getD_done (d : Nat) (todo done : List Byte) (m : Nat) (hm : m < done.length) :
    (sumLeft d done todo).getD m 0 = done.getD m 0 :=
  getD_of_take_eq (sumLeft_take d todo done) m hm

theorem sumLeft_getD_todo (d : Nat) (hd : 1 ≤ d) : ∀ (todo done : List Byte), d ≤ done.length →
    ∀ m, done.length ≤ m → m < done.length + todo.length →
      (sumLeft d done todo).getD m 0
        = addByte ((done ++ todo).getD m 0) ((sumLeft d done todo).getD (m - d) 0) := by
  intro todo
  induction todo with
  | nil => intro done _ m h1 h2; simp at h2; omega
  | cons a t ih =>
    intro done hlen m h1 h2
    simp only [sumLeft]
    rcases Nat.eq_or_lt_of_le h1 with h | h
    · subst h
      rw [sumLeft_getD_done d t _ done.length (by simp),
        sumLeft_getD_done d t _ (done.length - d) (by simp; omega)]
      rw [List.getD_append_right _ _ _ _ (le_refl _),
        List.getD_append_right _ _ _ _ (le_refl _),
        List.getD_append _ _ _ _ (by omega)]
      simp
    · have := ih (done ++ [addByte a (done.getD (done.length - d) 0)]) (by simp; omega) m
        (by simp; omega) (by simp at h2 ⊢; omega)
      rw [this]
      congr 1
      rw [List.getD_append_right _ _ _ _ (by simp; omega),
        List.getD_append_right _ _ _ _ (by omega)]
      simp only [List.length_append, List.length_singleton]
      have e : m - done.length = (m - (done.length + 1)) + 1 := by omega
      rw [e]
      simp

theorem leftLoop_take_drop (d j : Nat) (hd : 1 ≤ d) (hj : d ≤ j) (row : List Byte) :
    leftLoop (d : Int) (row.length - j) (j : Int) row
      = .ok (sumLeft d (row.take j) (row.drop j)) := by
  rcases Nat.lt_or_ge row.length j with h | h
  · have e : row.length - j = 0 := by omega
    rw [e, List.take_of_length_le (by omega), List.drop_of_length_le (by omega)]
    simp [leftLoop, sumLeft]
  · have := leftLoop_eq d hd (row.drop j) (row.take j) (by simp; omega)
    simpa [Nat.min_eq_left h] using this

theorem upLoop_eq (prev : List Byte) : ∀ (todo done : List Byte),
    done.length + todo.length ≤ prev.length →
      upLoop prev todo.length (done.length : Int) (done ++ todo)
        = .ok (done ++ List.zipWith addByte todo (prev.drop done.length)) := by
  intro todo
  induction todo with
  | nil => intro done _; simp [upLoop]
  | cons a t ih =>
    intro done hlen
    simp only [List.length_cons] at hlen
    have hlt : done.length < prev.length := by omega
    have h1 : index (done ++ a :: t) (done.length : Int) = some a := by
      rw [index_natCast, List.getElem?_append_right (le_refl _)]; simp
    have h2 : index prev (done.length : Int) = some (prev[done.length]) := by
      rw [index_natCast, List.getElem?_eq_getElem hlt]
    have h3 : (done ++ a :: t).set (done.length : Int).toNat (addByte a prev[done.length])
        = (done ++ [addByte a prev[done.length]]) ++ t := by
      simp [List.set_append]
    have h4 : ((done.length : Int) + 1)
        = (((done ++ [addByte a prev[done.length]]).length : Nat) : Int) := by
      simp
    simp only [List.length_cons, upLoop, h1, h2]
    rw [h3, h4, ih _ (by simp; omega)]
    rw [List.drop_eq_getElem_cons hlt]
    simp only [List.length_append, List.length_singleton, List.append_assoc,
      List.singleton_append, List.zipWith_cons_cons]

theorem copyLoop_eq : ∀ (rt rd pd pt : List Byte), rd.length = pd.length →
    rt.length = pt.length →
      copyLoop (rd ++ rt) rt.length (rd.length : Int) (pd ++ pt) = .ok (pd ++ rt) := by
  intro rt
  induction rt with
  | nil =>
    intro rd pd pt _ h2
    have : pt = [] := List.eq_nil_of_length_eq_zero (by simpa using h2.symm)
    simp [copyLoop, this]
  | cons a t ih =>
    intro rd pd pt h1 h2
    cases pt with
    | nil => simp at h2
    | cons b pt =>
      have hi : index (rd ++ a :: t) (rd.length : Int) = some a := by
        rw [index_natCast, List.getElem?_append_right (le_refl _)]; simp
      have hc : (0 : Int) ≤ (rd.length : Int)
          ∧ (rd.length : Int) < ((pd ++ b :: pt).length : Int) := by
        constructor
        · omega
        · simp; omega
      have h3 : (pd ++ b :: pt).set (rd.length : Int).toNat a = (pd ++ [a]) ++ pt := by
        simp [List.set_append, h1]
      have h4 : ((rd.length : Int) + 1) = (((rd ++ [a]).length : Nat) : Int) := by simp
      have h5 : rd ++ a :: t = (rd ++ [a]) ++ t := by simp
      simp only [List.length_cons, copyLoop, hi, hc, and_self, if_true]
      rw [h3, h4, h5, ih (rd ++ [a]) (pd ++ [a]) pt (by simp [h1]) (by simpa using h2)]
      simp

theorem copyLoop_row (row prev : List Byte) (h : row.length = prev.length) :
    copyLoop row row.length 0 prev = .ok row := by
  have := copyLoop_eq row [] [] prev rfl h
  simpa using this

/-! ## Rows of a buffer and the TIFF row loop -/

theorem rowAt_length (w : Nat) (data : List Byte) (i : Nat) (h : w * (i + 1) ≤ data.length) :
    (rowAt w data i).length = w := by
  simp only [rowAt, List.length_take, List.length_drop]
  rw [Nat.mul_succ] at h
  omega

theorem slice_eq_rowAt (w : Nat) (data : List Byte) (i : Nat) (h : w * (i + 1) ≤ data.length) :
    slice data ((w : Int) * (i : Int)) ((w : Int) * ((i : Int) + 1)) = some (rowAt w data i) := by
  have e1 : ((w : Int) * (i : Int)) = ((w * i : Nat) : Int) := by push_cast; ring
  have e2 : ((w : Int) * ((i : Int) + 1)) = ((w * (i + 1) : Nat) : Int) := by push_cast; ring
  rw [e1, e2]
  have hc : (0 : Int) ≤ ((w * i : Nat) : Int) ∧ ((w * i : Nat) : Int) ≤ ((w * (i + 1) : Nat) : Int)
      ∧ ((w * (i + 1) : Nat) : Int) ≤ (data.length : Int) := by
    refine ⟨by omega, ?_, by omega⟩
    rw [Nat.mul_succ]; omega
  simp only [slice, hc, and_self, if_true, Int.toNat_natCast, rowAt]
  have e3 : w * (i + 1) - w * i = w := by rw [Nat.mul_succ]; omega
  rw [e3]

theorem slice_tail (row : List Byte) (h : 1 ≤ row.length) :
    slice row 1 (row.length : Int) = some (row.drop 1) := by
  have hc : (0 : Int) ≤ 1 ∧ (1 : Int) ≤ (row.length : Int)
      ∧ (row.length : Int) ≤ (row.length : Int) := ⟨by omega, by omega, le_refl _⟩
  simp only [slice, hc, and_self, if_true, Int.toNat_natCast]
  have : (1 : Int).toNat = 1 := rfl
  rw [this, List.take_of_length_le (by simp)]

theorem writeBack_length (data : List Byte) (lo : Nat) (row : List Byte)
    (h : lo + row.length ≤ data.length) : (writeBack data lo row).length = data.length := by
  simp only [writeBack, List.length_append, List.length_take, List.length_drop]
  omega

theorem drop_writeBack (data : List Byte) (lo : Nat) (row : List Byte) (n : Nat)
    (h : lo + row.length ≤ data.length) (hn : lo + row.length ≤ n) :
    (writeBack data lo row).drop n = data.drop n := by
  have hl : (data.take lo ++ row).length = lo + row.length := by
    simp only [List.length_append, List.length_take]; omega
  have e : n = (data.take lo ++ row).length + (n - (lo + row.length)) := by omega
  rw [writeBack, e, List.drop_append, List.drop_drop, hl]

theorem rowAt_writeBack (w : Nat) (data : List Byte) (i r : Nat) (row : List Byte)
    (hrow : row.length = w) (h : w * (i + 1) ≤ data.length) (hr : i + 1 ≤ r) :
    rowAt w (writeBack data (w * i) row) r = rowAt w data r := by
  have h1 : w * i + row.length ≤ data.length := by rw [hrow, ← Nat.mul_succ]; exact h
  have h2 : w * i + row.length ≤ w * r := by
    rw [hrow, ← Nat.mul_succ]; exact Nat.mul_le_mul_left w hr
  rw [rowAt, drop_writeBack data (w * i) row (w * r) h1 h2, rowAt]

theorem take_left_of_take_append {R a b : List Byte} (h : R.take (a ++ b).length = a ++ b) :
    R.take a.length = a := by
  have h2 := congrArg (List.take a.length) h
  rw [List.take_take] at h2
  simpa using h2

theorem rowAt_of_take_append {R a b : List Byte} (k i : Nat)
    (h : R.take (a ++ b).length = a ++ b) (ha : a.length = k * i) (hb : b.length = k) :
    rowAt k R i = b := by
  rw [rowAt, List.take_drop]
  have e : k * i + k = (a ++ b).length := by simp [ha, hb]
  rw [e, h, ← ha]
  simp

theorem tiffRow_length (c : Nat) (row : List Byte) : (tiffRow c row).length = row.length := by
  simp only [tiffRow, sumLeft_length, List.length_take, List.length_drop]
  omega

theorem leftLoop_tiffRow (w c : Nat) (hc : 1 ≤ c) (row : List Byte) (hrow : row.length = w) :
    leftLoop (c : Int) ((w : Int) - (c : Int)).toNat (c : Int) row = .ok (tiffRow c row) := by
  have e : ((w : Int) - (c : Int)).toNat = row.length - c := by omega
  rw [e]
  exact leftLoop_take_drop c c hc (le_refl _) row

theorem tiffRows_spec (w c : Nat) (hc : 1 ≤ c) :
    ∀ (n i : Nat) (outData pOut : List Byte), w * (i + n) ≤ outData.length →
      pOut.length = w * i →
      ∃ R, tiffRows (w : Int) (c : Int) n (i : Int) outData pOut = .ok R
        ∧ R.length = w * (i + n) ∧ R.take pOut.length = pOut
        ∧ ∀ r, i ≤ r → r < i + n → rowAt w R r = tiffRow c (rowAt w outData r) := by
  intro n
  induction n with
  | zero =>
    intro i outData pOut _ hp
    refine ⟨pOut, by simp [tiffRows], by simpa using hp, by simp, ?_⟩
    intro r h1 h2; omega
  | succ n ih =>
    intro i outData pOut hlen hp
    have hrow : w * (i + 1) ≤ outData.length :=
      le_trans (Nat.mul_le_mul_left w (by omega)) hlen
    have hl := rowAt_length w outData i hrow
    have hl2 : (tiffRow c (rowAt w outData i)).length = w := by rw [tiffRow_length, hl]
    have hwb : w * i + (tiffRow c (rowAt w outData i)).length ≤ outData.length := by
      rw [hl2, ← Nat.mul_succ]; exact hrow
    have ei : ((i : Int) + 1) = ((i + 1 : Nat) : Int) := by push_cast; ring
    have em : ((w : Int) * (i : Int)).toNat = w * i := by
      rw [← Int.natCast_mul, Int.toNat_natCast]
    obtain ⟨R, hR, hRl, hRt, hRr⟩ := ih (i + 1)
      (writeBack outData (w * i) (tiffRow c (rowAt w outData i)))
      (pOut ++ tiffRow c (rowAt w outData i))
      (by rw [writeBack_length _ _ _ hwb]; exact le_of_eq_of_le (by ring_nf) hlen)
      (by rw [List.length_append, hp, hl2, Nat.mul_succ])
    refine ⟨R, ?_, ?_, take_left_of_take_append hRt, ?_⟩
    · simp only [tiffRows, slice_eq_rowAt w outData i hrow, leftLoop_tiffRow w c hc _ hl, em]
      rw [ei]; exact hR
    · rw [hRl]; ring
    · intro r h1 h2
      rcases Nat.eq_or_lt_of_le h1 with h | h
      · subst h
        rw [rowAt_of_take_append w i hRt hp hl2]
      · rw [hRr r (by omega) (by omega), rowAt_writeBack w outData i r _ hl2 hrow (by omega)]


/-! ## The TIFF branch -/

theorem wrapInt_of_inRange (x : Int) (h1 : minInt ≤ x) (h2 : x ≤ maxInt) : wrapInt x = x := by
  simp only [minInt, maxInt] at h1 h2
  simp only [wrapInt]
  omega

theorem readPredictor_of_hasPredictor (parms : PdfObjectDictionary) (p : Int)
    (h : HasPredictor parms p) : readPredictor parms = .ok p := by
  obtain ⟨h1, h2⟩ := h
  unfold readPredictor
  cases hq : asInteger (parms.get "Predictor") with
  | none => rw [hq] at h1; simp at h1
  | some n =>
    rw [hq] at h1
    simp only [Option.map_some', Option.some.injEq] at h1
    cases hb : parms.get "BitsPerComponent" with
    | none => simp [h1]
    | some o =>
      rw [hb] at h2
      rcases h2 with h2 | h2
      · simp at h2
      · cases ho : asInteger (some o) with
        | none => rw [ho] at h2; simp at h2
        | some b =>
          rw [ho] at h2
          simp only [Option.map_some', Option.some.injEq] at h2
          simp only [ho]
          simp [h1, h2]

theorem decodeStream_flate (zlib : Zlib) (ws : Byte → Bool) (obj : PdfObjectStream)
    (parms : PdfObjectDictionary) (outData : List Byte) (p : Int)
    (hs : FlateStream zlib obj parms outData) (hp : HasPredictor parms p) :
    decodeStream zlib ws obj
      = if p ≠ 1 then reversePredictor parms p outData else .ok outData := by
  obtain ⟨h1, h2, h3, h4⟩ := hs
  simp only [decodeStream, h1, flateDecode, h2, readPredictor_of_hasPredictor parms p hp, h3, h4,
    if_true]

theorem tiffPredictor_spec (columns colors : Int) (w c : Nat) (outData : List Byte)
    (hw : wrapInt (columns * colors) = (w : Int)) (hw0 : 0 < w) (hc : colors = (c : Int))
    (hc1 : 1 ≤ c) (hdiv : c ∣ w) (hlen : w ∣ outData.length) :
    ∃ R, tiffPredictor columns colors outData = .ok R ∧ R.length = outData.length
      ∧ ∀ r, r < outData.length / w → rowAt w R r = tiffRow c (rowAt w outData r) := by
  subst hc
  have hwl : w * (outData.length / w) = outData.length := Nat.mul_div_cancel' hlen
  obtain ⟨R, hR, hRl, -, hRr⟩ := tiffRows_spec w c hc1 (outData.length / w) 0 outData []
    (by simp [hwl]) (by simp)
  refine ⟨R, ?_, by simpa [hwl] using hRl, fun r hr => hRr r (Nat.zero_le _) (by omega)⟩
  have e1 : Int.tmod (outData.length : Int) (w : Int) = 0 := by
    rw [Int.tmod_eq_emod (by omega) (by omega)]
    exact_mod_cast Nat.mod_eq_zero_of_dvd hlen
  have e2 : Int.tmod (w : Int) (c : Int) = 0 := by
    rw [Int.tmod_eq_emod (by omega) (by omega)]
    exact_mod_cast Nat.mod_eq_zero_of_dvd hdiv
  have e3 : (Int.tdiv (outData.length : Int) (w : Int)).toNat = outData.length / w := by
    rw [Int.tdiv_eq_ediv (by omega) (by omega)]
    have : ((outData.length : Int) / (w : Int)) = ((outData.length / w : Nat) : Int) := by
      push_cast; rfl
    rw [this, Int.toNat_natCast]
  have hw' : (w : Int) ≠ 0 := by omega
  have hc' : (c : Int) ≠ 0 := by omega
  simp only [tiffPredictor, hw, hw', hc', e1, e2, e3, if_false, ne_eq, not_true_eq_false]
  simpa using hR

theorem rowAt_getD (w : Nat) (data : List Byte) (i j : Nat) (hj : j < w) :
    (rowAt w data i).getD j 0 = data.getD (w * i + j) 0 := by
  simp only [rowAt, List.getD_eq_getElem?_getD, List.getElem?_take, hj, if_true,
    List.getElem?_drop]

theorem ext_getD {l₁ l₂ : List Byte} (hl : l₁.length = l₂.length)
    (h : ∀ m, m < l₁.length → l₁.getD m 0 = l₂.getD m 0) : l₁ = l₂ := by
  apply List.ext_getElem hl
  intro m h1 h2
  have := h m h1
  simpa [List.getD_eq_getElem?_getD, List.getElem?_eq_getElem h1,
    List.getElem?_eq_getElem h2] using this

theorem eq_of_rowAt_eq (w n : Nat) (hw : 0 < w) {R d : List Byte} (hR : R.length = w * n)
    (hd : d.length = w * n) (h : ∀ r, r < n → rowAt w R r = rowAt w d r) : R = d := by
  apply ext_getD (by rw [hR, hd])
  intro m hm
  have hr : m / w < n := by
    rw [hR] at hm
    exact Nat.div_lt_of_lt_mul hm
  have e : w * (m / w) + m % w = m := Nat.div_add_mod m w
  have h1 := rowAt_getD w R (m / w) (m % w) (Nat.mod_lt _ hw)
  have h2 := rowAt_getD w d (m / w) (m % w) (Nat.mod_lt _ hw)
  rw [e] at h1 h2
  rw [← h1, ← h2, h _ hr]

theorem tiffRow_getD_lt (c : Nat) (row : List Byte) (m : Nat) (hm : m < c)
    (hl : m < row.length) : (tiffRow c row).getD m 0 = row.getD m 0 := by
  rw [tiffRow, sumLeft_getD_done c _ _ m (by simp; omega)]
  simp only [List.getD_eq_getElem?_getD, List.getElem?_take, hm, if_true]

theorem tiffRow_getD_ge (c : Nat) (hc : 1 ≤ c) (row : List Byte) (m : Nat) (hm : c ≤ m)
    (hl : m < row.length) :
    (tiffRow c row).getD m 0 = addByte (row.getD m 0) ((tiffRow c row).getD (m - c) 0) := by
  have hlen : (row.take c).length = c := by simp; omega
  have := sumLeft_getD_todo c hc (row.drop c) (row.take c) (by omega) m (by omega)
    (by simp; omega)
  rw [List.take_append_drop] at this
  exact this

theorem tiffRow_closed_form (c : Nat) (hc : 1 ≤ c) (row : List Byte) :
    ∀ m, m < row.length →
      ((tiffRow c row).getD m 0).val
        = (Finset.sum (Finset.range (m / c + 1)) fun k => (row.getD (m - k * c) 0).val) % 256 := by
  intro m
  induction m using Nat.strong_induction_on with
  | _ m ih =>
    intro hl
    rcases Nat.lt_or_ge m c with h | h
    · rw [tiffRow_getD_lt c row m h hl, Nat.div_eq_of_lt h]
      simp only [zero_add, Finset.sum_range_one, Nat.zero_mul, Nat.sub_zero]
      exact (Nat.mod_eq_of_lt (row.getD m 0).isLt).symm
    · rw [tiffRow_getD_ge c hc row m h hl, addByte_val, ih (m - c) (by omega) (by omega)]
      have e : m / c = (m - c) / c + 1 := by
        rw [Nat.div_eq m c, if_pos ⟨by omega, h⟩]
      rw [e, Finset.sum_range_succ' _ ((m - c) / c + 1)]
      have e2 : ∀ k, m - (k + 1) * c = m - c - k * c := by
        intro k; rw [Nat.succ_mul]; omega
      simp only [e2, Nat.zero_mul, Nat.sub_zero]
      omega

/-! ## The PNG branch -/

theorem pngFull_length (up row : List Byte) (h : up.length + 1 = row.length) :
    (pngFull up row).length = row.length := by
  unfold pngFull
  split
  · rfl
  · split
    · simp only [sumLeft_length, List.length_take, List.length_drop]; omega
    · simp only [List.length_append, List.length_take, List.length_zipWith, List.length_drop]
      omega

theorem pngFilter_eq (w : Nat) (prev row : List Byte) (hrow : row.length = w)
    (hprev : prev.length = w) (hw : 1 ≤ w) :
    pngFilter (w : Int) prev row (row.getD 0 0)
      = if (row.getD 0 0).val ≤ 2 then .ok (pngFull (prev.drop 1) row)
        else .error (.error (.invalidFilterByte (row.getD 0 0))) := by
  generalize hfb : row.getD 0 0 = fb
  unfold pngFilter pngFull
  rw [hfb]
  by_cases h0 : fb = 0
  · subst h0
    rw [if_pos rfl, if_pos rfl, if_pos (by decide)]
  · by_cases h1 : fb = 1
    · subst h1
      have e : ((w : Int) - 2).toNat = row.length - 2 := by omega
      have := leftLoop_take_drop 1 2 (le_refl _) (by omega) row
      simp only [Nat.cast_one, Nat.cast_ofNat] at this
      rw [if_neg h0, if_pos rfl, if_neg h0, if_pos rfl, if_pos (by decide), e, this]
    · by_cases h2 : fb = 2
      · subst h2
        have e : ((w : Int) - 1).toNat = (row.drop 1).length := by
          rw [List.length_drop]; omega
        have hl : (row.take 1).length = 1 := by rw [List.length_take]; omega
        have := upLoop_eq prev (row.drop 1) (row.take 1) (by
          rw [List.length_take, List.length_drop]; omega)
        rw [List.take_append_drop, hl] at this
        simp only [Nat.cast_one] at this
        rw [if_neg h0, if_neg h1, if_pos rfl, if_neg h0, if_neg h1, if_pos (by decide), e, this]
      · have hv : ¬ fb.val ≤ 2 := by
          intro hle
          have h0' : fb.val ≠ 0 := fun h => h0 (Fin.ext h)
          have h1' : fb.val ≠ 1 := fun h => h1 (Fin.ext h)
          have h2' : fb.val ≠ 2 := fun h => h2 (Fin.ext h)
          omega
        rw [if_neg h0, if_neg h1, if_neg h2, if_neg hv]

theorem pngRows_succ (w : Nat) (hw : 1 ≤ w) (n i : Nat) (outData prev pOut : List Byte)
    (hlen : w * (i + 1) ≤ outData.length) (hprev : prev.length = w) :
    pngRows (w : Int) (n + 1) (i : Int) outData prev pOut
      = if ((rowAt w outData i).getD 0 0).val ≤ 2 then
          pngRows (w : Int) n ((i + 1 : Nat) : Int)
            (writeBack outData (w * i) (pngFull (prev.drop 1) (rowAt w outData i)))
            (pngFull (prev.drop 1) (rowAt w outData i))
            (pOut ++ (pngFull (prev.drop 1) (rowAt w outData i)).drop 1)
        else .error (.error (.invalidFilterByte ((rowAt w outData i).getD 0 0))) := by
  have hl := rowAt_length w outData i hlen
  have hidx : index (rowAt w outData i) 0 = some ((rowAt w outData i).getD 0 0) := by
    have := index_natCast (rowAt w outData i) 0
    simp only [Nat.cast_zero] at this
    rw [this, List.getD_eq_getElem?_getD, List.getElem?_eq_getElem (by omega)]
    simp
  have hfl : (pngFull (prev.drop 1) (rowAt w outData i)).length = w := by
    rw [pngFull_length _ _ (by simp; omega), hl]
  have ei : ((i : Int) + 1) = ((i + 1 : Nat) : Int) := by push_cast; ring
  have em : ((w : Int) * (i : Int)).toNat = w * i := by
    rw [← Int.natCast_mul, Int.toNat_natCast]
  have hcopy : copyLoop (pngFull (prev.drop 1) (rowAt w outData i)) (w : Int).toNat 0 prev
      = .ok (pngFull (prev.drop 1) (rowAt w outData i)) := by
    have := copyLoop_row (pngFull (prev.drop 1) (rowAt w outData i)) prev (by rw [hfl, hprev])
    rw [hfl] at this
    simpa using this
  have hsl := slice_tail (pngFull (prev.drop 1) (rowAt w outData i)) (by omega)
  simp only [pngRows, slice_eq_rowAt w outData i hlen, hidx, pngFilter_eq w prev _ hl hprev hw]
  by_cases hv : ((rowAt w outData i).getD 0 0).val ≤ 2
  · simp only [hv, if_true, hcopy, hsl, em, ei]
  · simp only [hv, if_false]

theorem pngRows_ok (w : Nat) (hw : 1 ≤ w) :
    ∀ (n i : Nat) (outData prev pOut R : List Byte), w * (i + n) ≤ outData.length →
      prev.length = w → pOut.length = (w - 1) * i →
      pngRows (w : Int) n (i : Int) outData prev pOut = .ok R →
      R.length = (w - 1) * (i + n) ∧ R.take pOut.length = pOut
        ∧ ∀ r, i ≤ r → r < i + n →
          ((rowAt w outData r).getD 0 0).val ≤ 2
            ∧ rowAt (w - 1) R r
              = (pngFull (if r = i then prev.drop 1 else rowAt (w - 1) R (r - 1))
                  (rowAt w outData r)).drop 1 := by
  intro n
  induction n with
  | zero =>
    intro i outData prev pOut R _ _ hp h
    simp only [pngRows, Except.ok.injEq] at h
    subst h
    refine ⟨by simpa using hp, by simp, ?_⟩
    intro r h1 h2; omega
  | succ n ih =>
    intro i outData prev pOut R hlen hprev hp h
    have hrow : w * (i + 1) ≤ outData.length :=
      le_trans (Nat.mul_le_mul_left w (by omega)) hlen
    rw [pngRows_succ w hw n i outData prev pOut hrow hprev] at h
    by_cases hv : ((rowAt w outData i).getD 0 0).val ≤ 2
    · rw [if_pos hv] at h
      have hl := rowAt_length w outData i hrow
      have hfl : (pngFull (prev.drop 1) (rowAt w outData i)).length = w := by
        rw [pngFull_length _ _ (by simp; omega), hl]
      have hdl : ((pngFull (prev.drop 1) (rowAt w outData i)).drop 1).length = w - 1 := by
        rw [List.length_drop, hfl]
      have hwb : w * i + (pngFull (prev.drop 1) (rowAt w outData i)).length
          ≤ outData.length := by
        rw [hfl, ← Nat.mul_succ]; exact hrow
      obtain ⟨hRl, hRt, hRr⟩ := ih (i + 1) _ _ _ R
        (by rw [writeBack_length _ _ _ hwb]; exact le_of_eq_of_le (by ring_nf) hlen)
        hfl (by rw [List.length_append, hp, hdl, Nat.mul_succ]) h
      refine ⟨by rw [hRl]; ring_nf, take_left_of_take_append hRt, ?_⟩
      intro r h1 h2
      rcases Nat.eq_or_lt_of_le h1 with he | hlt
      · subst he
        refine ⟨hv, ?_⟩
        rw [if_pos rfl, rowAt_of_take_append (w - 1) i hRt hp hdl]
      · obtain ⟨ht, hr⟩ := hRr r (by omega) (by omega)
        rw [rowAt_writeBack w outData i r _ hfl hrow (by omega)] at ht hr
        refine ⟨ht, ?_⟩
        rw [hr, if_neg (show ¬ r = i by omega)]
        by_cases he : r = i + 1
        · subst he
          rw [if_pos rfl, Nat.add_sub_cancel, rowAt_of_take_append (w - 1) i hRt hp hdl]
        · rw [if_neg he]
    · rw [if_neg hv] at h
      cases h

theorem pngRows_valid (w : Nat) (hw : 1 ≤ w) :
    ∀ (n i : Nat) (outData prev pOut : List Byte), w * (i + n) ≤ outData.length →
      prev.length = w →
      (∀ r, i ≤ r → r < i + n → ((rowAt w outData r).getD 0 0).val ≤ 2) →
      ∃ R, pngRows (w : Int) n (i : Int) outData prev pOut = .ok R := by
  intro n
  induction n with
  | zero => intro i outData prev pOut _ _ _; exact ⟨pOut, by simp [pngRows]⟩
  | succ n ih =>
    intro i outData prev pOut hlen hprev hall
    have hrow : w * (i + 1) ≤ outData.length :=
      le_trans (Nat.mul_le_mul_left w (by omega)) hlen
    have hl := rowAt_length w outData i hrow
    have hfl : (pngFull (prev.drop 1) (rowAt w outData i)).length = w := by
      rw [pngFull_length _ _ (by simp; omega), hl]
    have hwb : w * i + (pngFull (prev.drop 1) (rowAt w outData i)).length
        ≤ outData.length := by
      rw [hfl, ← Nat.mul_succ]; exact hrow
    rw [pngRows_succ w hw n i outData prev pOut hrow hprev,
      if_pos (hall i (le_refl _) (by omega))]
    apply ih (i + 1) _ _ _
      (by rw [writeBack_length _ _ _ hwb]; exact le_of_eq_of_le (by ring_nf) hlen) hfl
    intro r h1 h2
    rw [rowAt_writeBack w outData i r _ hfl hrow h1]
    exact hall r (by omega) (by omega)

theorem pngRows_invalid (w : Nat) (hw : 1 ≤ w) :
    ∀ (n i : Nat) (outData prev pOut : List Byte), w * (i + n) ≤ outData.length →
      prev.length = w →
      (∃ r, i ≤ r ∧ r < i + n ∧ ¬ ((rowAt w outData r).getD 0 0).val ≤ 2) →
      ∃ r, i ≤ r ∧ r < i + n ∧ ¬ ((rowAt w outData r).getD 0 0).val ≤ 2
        ∧ (∀ r', i ≤ r' → r' < r → ((rowAt w outData r').getD 0 0).val ≤ 2)
        ∧ pngRows (w : Int) n (i : Int) outData prev pOut
          = .error (.error (.invalidFilterByte ((rowAt w outData r).getD 0 0))) := by
  intro n
  induction n with
  | zero =>
    intro i outData prev pOut _ _ hex
    obtain ⟨r, h1, h2, _⟩ := hex
    omega
  | succ n ih =>
    intro i outData prev pOut hlen hprev hex
    have hrow : w * (i + 1) ≤ outData.length :=
      le_trans (Nat.mul_le_mul_left w (by omega)) hlen
    have hl := rowAt_length w outData i hrow
    have hfl : (pngFull (prev.drop 1) (rowAt w outData i)).length = w := by
      rw [pngFull_length _ _ (by simp; omega), hl]
    have hwb : w * i + (pngFull (prev.drop 1) (rowAt w outData i)).length
        ≤ outData.length := by
      rw [hfl, ← Nat.mul_succ]; exact hrow
    rw [pngRows_succ w hw n i outData prev pOut hrow hprev]
    by_cases hv : ((rowAt w outData i).getD 0 0).val ≤ 2
    · rw [if_pos hv]
      obtain ⟨r, h1, h2, h3⟩ := hex
      have hne : r ≠ i := fun e => h3 (e ▸ hv)
      obtain ⟨r0, g1, g2, g3, g4, g5⟩ := ih (i + 1)
        (writeBack outData (w * i) (pngFull (prev.drop 1) (rowAt w outData i)))
        (pngFull (prev.drop 1) (rowAt w outData i))
        (pOut ++ (pngFull (prev.drop 1) (rowAt w outData i)).drop 1)
        (by rw [writeBack_length _ _ _ hwb]; exact le_of_eq_of_le (by ring_nf) hlen) hfl
        ⟨r, by omega, by omega, by
          rw [rowAt_writeBack w outData i r _ hfl hrow (by omega)]; exact h3⟩
      rw [rowAt_writeBack w outData i r0 _ hfl hrow g1] at g3 g5
      refine ⟨r0, by omega, by omega, g3, ?_, g5⟩
      intro r' q1 q2
      rcases Nat.eq_or_lt_of_le q1 with he | hlt
      · subst he; exact hv
      · have := g4 r' (by omega) q2
        rwa [rowAt_writeBack w outData i r' _ hfl hrow (by omega)] at this
    · rw [if_neg hv]
      exact ⟨i, le_refl _, by omega, hv, fun r' q1 q2 => by omega, rfl⟩

theorem tdiv_natCast (a b : Nat) : (Int.tdiv (a : Int) (b : Int)).toNat = a / b := by
  rw [Int.tdiv_eq_ediv (by omega) (by omega)]
  have : ((a : Int) / (b : Int)) = ((a / b : Nat) : Int) := by push_cast; rfl
  rw [this, Int.toNat_natCast]

theorem tmod_natCast (a b : Nat) : Int.tmod (a : Int) (b : Int) = ((a % b : Nat) : Int) := by
  rw [Int.tmod_eq_emod (by omega) (by omega)]
  push_cast; rfl

theorem pngPredictor_eq (columns : Int) (n : Nat) (outData : List Byte)
    (hn : columns = (n : Int)) (hmax : ((n + 1 : Nat) : Int) ≤ maxAlloc)
    (hlen : (n + 1) ∣ outData.length) :
    pngPredictor columns outData
      = pngRows ((n + 1 : Nat) : Int) (outData.length / (n + 1)) ((0 : Nat) : Int) outData
          (List.replicate (n + 1) 0) [] := by
  have hmax' : ((n + 1 : Nat) : Int) ≤ 281474976710656 := hmax
  have hw : wrapInt (columns + 1) = ((n + 1 : Nat) : Int) := by
    rw [hn, wrapInt_of_inRange]
    · push_cast; rfl
    · simp only [minInt]; omega
    · simp only [maxInt]; omega
  have h0 : ¬ (((n + 1 : Nat) : Int) = 0) := by omega
  have h1 : ¬ (((n + 1 : Nat) : Int) < 0) := by omega
  have h3 : ¬ (maxAlloc < ((n + 1 : Nat) : Int)) := not_lt.2 hmax
  have h2 : Int.tmod (outData.length : Int) ((n + 1 : Nat) : Int) = 0 := by
    rw [tmod_natCast, Nat.mod_eq_zero_of_dvd hlen]; rfl
  simp only [pngPredictor, hw, h0, h1, h2, h3, if_false, ne_eq, not_true_eq_false,
    tdiv_natCast, Int.toNat_natCast, Nat.cast_zero]

theorem pngPredictor_ok_inv (columns : PdfObjectInteger) (outData out : List Byte)
    (h : pngPredictor columns.val outData = .ok out) :
    columns.val = ((columns.val.toNat : Nat) : Int)
      ∧ ((columns.val.toNat + 1 : Nat) : Int) ≤ maxAlloc
      ∧ (columns.val.toNat + 1) ∣ outData.length := by
  have hlo : -9223372036854775808 ≤ columns.val := columns.property.1
  have hhi : columns.val ≤ 9223372036854775807 := columns.property.2
  unfold pngPredictor at h
  simp only [ne_eq] at h
  split at h
  · cases h
  · rename_i hz
    split at h
    · cases h
    · rename_i hm
      split at h
      · cases h
      · rename_i hneg
        split at h
        · cases h
        · rename_i hbig
          have hpos : 0 < wrapInt (columns.val + 1) := by omega
          have hlt : columns.val < 9223372036854775807 := by
            simp only [wrapInt] at hpos
            omega
          have hw : wrapInt (columns.val + 1) = columns.val + 1 := by
            simp only [wrapInt]
            omega
          rw [hw] at hpos hm hbig
          have e1 : columns.val = ((columns.val.toNat : Nat) : Int) := by omega
          have e2 : columns.val + 1 = ((columns.val.toNat + 1 : Nat) : Int) := by omega
          refine ⟨e1, ?_, ?_⟩
          · rw [← e2]; exact not_lt.1 hbig
          · rw [e2, tmod_natCast] at hm
            simp only [not_not] at hm
            exact Nat.dvd_of_mod_eq_zero (by exact_mod_cast hm)

theorem reversePredictor_png (parms : PdfObjectDictionary) (p : Int) (outData : List Byte)
    (columns : PdfObjectInteger) (hp1 : 10 ≤ p) (hp2 : p ≤ 15)
    (hcol : asInteger (parms.get "Columns") = some columns) :
    reversePredictor parms p outData = pngPredictor columns.val outData := by
  have h2 : ¬ p = 2 := by omega
  simp only [reversePredictor, h2, if_false, hp1, hp2, and_self, if_true, hcol]

theorem decodeStream_png (zlib : Zlib) (ws : Byte → Bool) (obj : PdfObjectStream)
    (parms : PdfObjectDictionary) (outData : List Byte) (p : Int) (columns : PdfObjectInteger)
    (hs : FlateStream zlib obj parms outData) (hp : HasPredictor parms p)
    (hp1 : 10 ≤ p) (hp2 : p ≤ 15) (hcol : asInteger (parms.get "Columns") = some columns) :
    decodeStream zlib ws obj = pngPredictor columns.val outData := by
  rw [decodeStream_flate zlib ws obj parms outData p hs hp, if_pos (by omega),
    reversePredictor_png parms p outData columns hp1 hp2 hcol]

theorem png_decode_ok (zlib : Zlib) (ws : Byte → Bool) (obj : PdfObjectStream)
    (parms : PdfObjectDictionary) (outData out : List Byte) (p : Int)
    (columns : PdfObjectInteger) (n : Nat)
    (hs : FlateStream zlib obj parms outData) (hp : HasPredictor parms p)
    (hp1 : 10 ≤ p) (hp2 : p ≤ 15) (hcol : asInteger (parms.get "Columns") = some columns)
    (hn : n = columns.val.toNat) (hok : decodeStream zlib ws obj = .ok out) :
    out.length = n * (outData.length / (n + 1))
      ∧ ∀ r, r < outData.length / (n + 1) →
        ((rowAt (n + 1) outData r).getD 0 0).val ≤ 2
          ∧ rowAt n out r = (pngFull (rowAbove n out r) (rowAt (n + 1) outData r)).drop 1 := by
  rw [decodeStream_png zlib ws obj parms outData p columns hs hp hp1 hp2 hcol] at hok
  obtain ⟨e1, e2, e3⟩ := pngPredictor_ok_inv columns outData out hok
  rw [← hn] at e1 e2 e3
  rw [pngPredictor_eq columns.val n outData e1 e2 e3] at hok
  obtain ⟨hl, -, hr⟩ := pngRows_ok (n + 1) (by omega) (outData.length / (n + 1)) 0 outData
    (List.replicate (n + 1) 0) [] out
    (by rw [Nat.zero_add]; exact Nat.mul_div_le _ _) (by simp) (by simp) hok
  refine ⟨by simpa using hl, ?_⟩
  intro r hr'
  obtain ⟨h1, h2⟩ := hr r (Nat.zero_le _) (by omega)
  refine ⟨h1, ?_⟩
  simp only [Nat.add_sub_cancel, List.drop_replicate] at h2
  exact h2

theorem getD_drop_one (row : List Byte) (m : Nat) :
    (row.drop 1).getD m 0 = row.getD (m + 1) 0 := by
  simp only [List.getD_eq_getElem?_getD, List.getElem?_drop, Nat.add_comm 1 m]

theorem sumLeft_one : ∀ (todo done : List Byte) (l : Byte),
    sumLeft 1 (done ++ [l]) todo = done ++ [l] ++ standardSubFrom l todo := by
  intro todo
  induction todo with
  | nil => intro done l; simp [sumLeft, standardSubFrom]
  | cons a t ih =>
    intro done l
    have e : (done ++ [l]).getD ((done ++ [l]).length - 1) 0 = l := by
      rw [List.getD_append_right _ _ _ _ (by simp)]
      simp
    simp only [sumLeft, e, standardSubFrom]
    rw [ih (done ++ [l]) (addByte a l)]
    simp only [List.append_assoc, List.singleton_append, List.cons_append, List.nil_append]

theorem pngFull_drop_none (up row : List Byte) (h : row.getD 0 0 = 0) :
    (pngFull up row).drop 1 = row.drop 1 := by
  rw [pngFull, if_pos h]

theorem pngFull_drop_sub (up row : List Byte) (h : row.getD 0 0 = 1) :
    (pngFull up row).drop 1 = standardSub (row.drop 1) := by
  have h0 : ¬ row.getD 0 0 = 0 := by rw [h]; decide
  rw [pngFull, if_neg h0, if_pos h]
  match row with
  | [] => simp [sumLeft, standardSub, standardSubFrom]
  | [t] => simp [sumLeft, standardSub, standardSubFrom]
  | t :: x :: rest =>
    have := sumLeft_one rest [t] x
    simp only [List.singleton_append] at this
    simp only [List.take_succ_cons, List.take_zero, List.drop_succ_cons, List.drop_zero, this,
      standardSub, standardSubFrom, addByte_zero, List.cons_append, List.nil_append]

theorem pngFull_drop_up (up row : List Byte) (h : row.getD 0 0 = 2) (hl : 1 ≤ row.length) :
    (pngFull up row).drop 1 = List.zipWith addByte (row.drop 1) up := by
  have h0 : ¬ row.getD 0 0 = 0 := by rw [h]; decide
  have h1 : ¬ row.getD 0 0 = 1 := by rw [h]; decide
  rw [pngFull, if_neg h0, if_neg h1]
  have e : (row.take 1).length = 1 := by rw [List.length_take]; omega
  have := @List.drop_append _ (row.take 1) (List.zipWith addByte (row.drop 1) up) 0
  rw [e] at this
  simpa using this

theorem zipWith_addByte_getD (a b : List Byte) (k : Nat) (ha : k < a.length)
    (hb : k < b.length) :
    (List.zipWith addByte a b).getD k 0 = addByte (a.getD k 0) (b.getD k 0) := by
  simp only [List.getD_eq_getElem?_getD, List.getElem?_zipWith,
    List.getElem?_eq_getElem ha, List.getElem?_eq_getElem hb]
  rfl

theorem zipWith_addByte_zeros (a : List Byte) :
    List.zipWith addByte a (List.replicate a.length 0) = a := by
  apply ext_getD (by simp)
  intro m hm
  have hm' : m < a.length := by simpa using hm
  rw [zipWith_addByte_getD a _ m hm' (by simpa using hm')]
  have : (List.replicate a.length (0 : Byte)).getD m 0 = 0 := by
    simp [List.getD_eq_getElem?_getD, List.getElem?_replicate, hm']
  rw [this, addByte_zero]

theorem standardSubFrom_length : ∀ (xs : List Byte) (l : Byte),
    (standardSubFrom l xs).length = xs.length := by
  intro xs
  induction xs with
  | nil => intro l; rfl
  | cons x xs ih => intro l; simp [standardSubFrom, ih]

theorem standardSubFrom_getD_val : ∀ (xs : List Byte) (l : Byte) (k : Nat), k < xs.length →
    ((standardSubFrom l xs).getD k 0).val
      = (l.val + Finset.sum (Finset.range (k + 1)) fun m => (xs.getD m 0).val) % 256 := by
  intro xs
  induction xs with
  | nil => intro l k hk; simp at hk
  | cons x xs ih =>
    intro l k hk
    cases k with
    | zero =>
      simp only [standardSubFrom, List.getD_cons_zero, addByte_val, zero_add,
        Finset.sum_range_one]
      omega
    | succ k =>
      simp only [List.length_cons] at hk
      rw [Finset.sum_range_succ']
      simp only [standardSubFrom, List.getD_cons_succ, List.getD_cons_zero]
      rw [ih (addByte x l) k (by omega), addByte_val]
      omega

theorem standardSub_getD_zero (xs : List Byte) :
    (standardSub xs).getD 0 0 = xs.getD 0 0 := by
  cases xs with
  | nil => rfl
  | cons x xs => simp [standardSub, standardSubFrom, addByte_zero]

/-! ## The ASCIIHexDecode branch -/

theorem hexRead_eq (ws : Byte → Bool) : ∀ (s inb : List Byte),
    hexRead ws s inb
      = match (beforeTerminator s).find? (isInvalidHexByte ws) with
        | some b => .error (.invalidAsciiHexCharacter b)
        | none =>
          if s.any (fun b => b.val == 62) then
            .ok (inb ++ (beforeTerminator s).filter fun b => !ws b)
          else .error .eof := by
  intro s
  induction s with
  | nil => intro inb; simp [hexRead, beforeTerminator]
  | cons b rest ih =>
    intro inb
    by_cases h62 : b.val = 62
    · simp [hexRead, beforeTerminator, h62]
    · have hbt : beforeTerminator (b :: rest) = b :: beforeTerminator rest := by
        simp [beforeTerminator, h62]
      have hany : (b :: rest).any (fun b => b.val == 62) = rest.any (fun b => b.val == 62) := by
        simp [h62]
      rw [hbt, hany]
      by_cases hw : ws b = true
      · have hbad : isInvalidHexByte ws b = false := by simp [isInvalidHexByte, hw]
        simp only [hexRead, h62, if_false, hw, if_true, ih inb, List.find?_cons, hbad,
          List.filter_cons, Bool.not_true]
        rfl
      · have hw' : ws b = false := by simpa using hw
        by_cases hd : isHexDigit b = true
        · have hbad : isInvalidHexByte ws b = false := by simp [isInvalidHexByte, hd]
          simp only [hexRead, h62, if_false, hw', hd, if_true, ih (inb ++ [b]),
            List.find?_cons, hbad, List.filter_cons, Bool.not_false, List.append_assoc,
            List.singleton_append]
          rfl
        · have hd' : isHexDigit b = false := by simpa using hd
          have hbad : isInvalidHexByte ws b = true := by simp [isInvalidHexByte, hd', hw']
          simp only [hexRead, h62, if_false, hw', hd', List.find?_cons, hbad]
          rfl

set_option maxRecDepth 100000 in
theorem fromHexChar_of_isHexDigit : ∀ b : Byte, isHexDigit b = true →
    ∃ a : Byte, fromHexChar b = some a ∧ a.val = hexValue b ∧ a.val < 16 := by
  decide

theorem nibbles_eq : ∀ a b : Fin 16,
    ((a.val <<< 4) % 256) ||| b.val = 16 * a.val + b.val := by
  decide

theorem hexDecode_eq : ∀ (ds : List Byte), (∀ b ∈ ds, isHexDigit b = true) →
    ds.length % 2 = 0 → hexDecode ds = .ok (decodePairs ds)
  | [], _, _ => rfl
  | [p], _, h => by simp at h
  | p :: q :: rest, hall, hlen => by
    obtain ⟨a, ha, hav, ha16⟩ := fromHexChar_of_isHexDigit p (hall p (by simp))
    obtain ⟨b, hb, hbv, hb16⟩ := fromHexChar_of_isHexDigit q (hall q (by simp))
    have ih := hexDecode_eq rest (fun x hx => hall x (by simp [hx]))
      (by simp only [List.length_cons] at hlen; omega)
    have hn := nibbles_eq ⟨a.val, ha16⟩ ⟨b.val, hb16⟩
    simp only [hav, hbv] at hn
    simp only [hexDecode, ha, hb, ih, decodePairs, hav, hbv, hn]

theorem decodePairs_length : ∀ (ds : List Byte), (decodePairs ds).length = ds.length / 2
  | [] => rfl
  | [_] => by simp [decodePairs]
  | _ :: _ :: rest => by
    simp only [decodePairs, List.length_cons, decodePairs_length rest]
    omega

theorem padOdd_length_even (ds : List Byte) : (padOdd ds).length % 2 = 0 := by
  unfold padOdd
  split
  · simp only [List.length_append, List.length_singleton]; omega
  · omega

theorem decodePairs_padOdd_length (ds : List Byte) :
    (decodePairs (padOdd ds)).length = (ds.length + 1) / 2 := by
  rw [decodePairs_length]
  unfold padOdd
  split
  · simp only [List.length_append, List.length_singleton]
  · omega

theorem asciiHexDecode_ok (ws : Byte → Bool) (s inb : List Byte)
    (h : hexRead ws s [] = .ok inb) (hall : ∀ b ∈ inb, isHexDigit b = true) :
    asciiHexDecode ws s = .ok (decodePairs (padOdd inb)) := by
  have hpad : ∀ b ∈ padOdd inb, isHexDigit b = true := by
    intro b hb
    unfold padOdd at hb
    split at hb
    · rcases List.mem_append.1 hb with h1 | h1
      · exact hall b h1
      · have : b = 48 := by simpa using h1
        subst this; decide
    · exact hall b hb
  have := hexDecode_eq (padOdd inb) hpad (padOdd_length_even inb)
  unfold padOdd at this
  simp only [asciiHexDecode, h, this]
  rfl

theorem decodeStream_hex (zlib : Zlib) (ws : Byte → Bool) (obj : PdfObjectStream)
    (hF : asName (obj.PdfObjectDictionary.get "Filter") = some "ASCIIHexDecode") :
    decodeStream zlib ws obj = asciiHexDecode ws obj.Stream := by
  simp only [decodeStream, hF]
  rw [if_neg (by decide)]
  simp

/-! ## TIFF predictor: closed form and round trip -/

theorem tiff_reverse (parms : PdfObjectDictionary) (outData : List Byte)
    (columns : PdfObjectInteger) (n c : Nat)
    (hcol : asInteger (parms.get "Columns") = some columns)
    (hn : columns.val = (n : Int)) (hc : readColors parms = (c : Int))
    (h1 : 1 ≤ n) (h2 : 1 ≤ c) (hno : n * c ≤ 9223372036854775807)
    (hlen : n * c ∣ outData.length) :
    ∃ out, reversePredictor parms 2 outData = .ok out ∧ out.length = outData.length
      ∧ ∀ r, r < outData.length / (n * c) →
        rowAt (n * c) out r = tiffRow c (rowAt (n * c) outData r) := by
  have hw : wrapInt (columns.val * readColors parms) = ((n * c : Nat) : Int) := by
    rw [hn, hc, wrapInt_of_inRange]
    · push_cast; rfl
    · have : (0 : Int) ≤ (n : Int) * (c : Int) := by positivity
      simp only [minInt]; omega
    · have : ((n * c : Nat) : Int) ≤ 9223372036854775807 := by exact_mod_cast hno
      simp only [maxInt]; push_cast at this; exact this
  have := tiffPredictor_spec columns.val (readColors parms) (n * c) c outData hw
    (Nat.mul_pos h1 h2) hc h2 (Dvd.intro_left n rfl) hlen
  simpa only [reversePredictor, if_true, hcol] using this

/-- C1 (amended): with `Predictor` 2, `Columns` `n ≥ 1` and `Colors` `c ≥ 1` whose product
does not overflow a 64-bit `int`, and a decompressed buffer whose length is a multiple of
`rowLength = n*c`, `decodeStream` succeeds with an output of the same length in which, in
every row, the byte at index `j` is the sum modulo 256 of the input bytes of that row at
`j, j-c, j-2c, ..` (all indices `≥ 0`), and the bytes at indices below `c` are unchanged. -/
theorem tiff_closed_form (zlib : Zlib) (isWhiteSpace : Byte → Bool) (obj : PdfObjectStream)
    (parms : PdfObjectDictionary) (outData : List Byte) (columns : PdfObjectInteger) (n c : Nat)
    (hs : FlateStream zlib obj parms outData) (hp : HasPredictor parms 2)
    (hcol : asInteger (parms.get "Columns") = some columns)
    (hn : columns.val = (n : Int)) (hc : readColors parms = (c : Int))
    (h1 : 1 ≤ n) (h2 : 1 ≤ c) (hno : n * c ≤ 9223372036854775807)
    (hlen : n * c ∣ outData.length) :
    ∃ out, decodeStream zlib isWhiteSpace obj = .ok out ∧ out.length = outData.length
      ∧ ∀ i j, i < outData.length / (n * c) → j < n * c →
        ((rowAt (n * c) out i).getD j 0).val
            = (Finset.sum (Finset.range (j / c + 1)) fun k =>
                ((rowAt (n * c) outData i).getD (j - k * c) 0).val) % 256
          ∧ (j < c → (rowAt (n * c) out i).getD j 0 = (rowAt (n * c) outData i).getD j 0) := by
  obtain ⟨out, ho, hl, hr⟩ := tiff_reverse parms outData columns n c hcol hn hc h1 h2 hno hlen
  refine ⟨out, ?_, hl, ?_⟩
  · rw [decodeStream_flate zlib isWhiteSpace obj parms outData 2 hs hp]
    simpa using ho
  · intro i j hi hj
    have hrow : (rowAt (n * c) outData i).length = n * c := by
      apply rowAt_length
      calc n * c * (i + 1) ≤ n * c * (outData.length / (n * c)) := Nat.mul_le_mul_left _ hi
        _ ≤ outData.length := Nat.mul_div_le _ _
    rw [hr i hi]
    exact ⟨tiffRow_closed_form c h2 _ j (by omega),
      fun hjc => tiffRow_getD_lt c _ j hjc (by omega)⟩

/-- Witness of `tiff_closed_form`: two rows of two pixels with two colours each. -/
theorem tiff_closed_form_witness :
    ∃ out, decodeStream storedZlib pdfWhiteSpace (flateObject tiffParms2 [1, 2, 3, 4, 250, 10, 0, 1])
        = .ok out ∧ out.length = ([1, 2, 3, 4, 250, 10, 0, 1] : List Byte).length
      ∧ ∀ i j, i < ([1, 2, 3, 4, 250, 10, 0, 1] : List Byte).length / (2 * 2) → j < 2 * 2 →
        ((rowAt (2 * 2) out i).getD j 0).val
            = (Finset.sum (Finset.range (j / 2 + 1)) fun k =>
                ((rowAt (2 * 2) [1, 2, 3, 4, 250, 10, 0, 1] i).getD (j - k * 2) 0).val) % 256
          ∧ (j < 2 → (rowAt (2 * 2) out i).getD j 0
              = (rowAt (2 * 2) [1, 2, 3, 4, 250, 10, 0, 1] i).getD j 0) :=
  tiff_closed_form storedZlib pdfWhiteSpace (flateObject tiffParms2 [1, 2, 3, 4, 250, 10, 0, 1])
    tiffParms2 [1, 2, 3, 4, 250, 10, 0, 1] ⟨2, by decide⟩ 2 2 ⟨rfl, rfl, rfl, rfl⟩
    ⟨rfl, Or.inl rfl⟩ rfl rfl rfl (by decide) (by decide) (by decide) (by decide)

/-- C1 (as stated) fails: `Columns = Colors = 2^32` are both `≥ 1` and the empty buffer has a
length that is a multiple of `Columns*Colors`, but the `int` product wraps to `0` and the
division `len(outData) / rowLength` panics. -/
theorem tiff_closed_form_counterexample :
    FlateStream storedZlib (flateObject tiffParmsOverflow []) tiffParmsOverflow []
      ∧ HasPredictor tiffParmsOverflow 2
      ∧ (asInteger (tiffParmsOverflow.get "Columns")).map Subtype.val = some 4294967296
      ∧ readColors tiffParmsOverflow = 4294967296
      ∧ (4294967296 * 4294967296 : Int) ∣ (([] : List Byte).length : Int)
      ∧ decodeStream storedZlib pdfWhiteSpace (flateObject tiffParmsOverflow [])
          = .error (.panic .divideByZero)
      ∧ ¬ ∃ out, decodeStream storedZlib pdfWhiteSpace (flateObject tiffParmsOverflow [])
          = .ok out :=
  ⟨⟨rfl, rfl, rfl, rfl⟩, ⟨rfl, Or.inl rfl⟩, rfl, rfl, by decide, by decide,
    fun ⟨_, h⟩ => by
      rw [show decodeStream storedZlib pdfWhiteSpace (flateObject tiffParmsOverflow [])
        = .error (.panic .divideByZero) by decide] at h
      cases h⟩

theorem addByte_subByte (a b : Byte) : addByte (subByte a b) b = a := by
  apply Fin.ext
  have ha := a.isLt
  have hb := b.isLt
  simp only [addByte, subByte]
  omega

theorem tiffEncode_length (n : Nat) (d : List Byte) : (tiffEncode n d).length = d.length := by
  simp [tiffEncode]

theorem tiffEncode_getD (n : Nat) (d : List Byte) (m : Nat) (hm : m < d.length) :
    (tiffEncode n d).getD m 0
      = if m % n = 0 then d.getD m 0 else subByte (d.getD m 0) (d.getD (m - 1) 0) := by
  simp [tiffEncode, List.getD_eq_getElem?_getD, List.getElem?_map, List.getElem?_range hm]

theorem tiffRow_one_encode (n : Nat) (d : List Byte) (r : Nat)
    (hr : n * (r + 1) ≤ d.length) :
    tiffRow 1 (rowAt n (tiffEncode n d) r) = rowAt n d r := by
  have hE : (rowAt n (tiffEncode n d) r).length = n :=
    rowAt_length n _ r (by rw [tiffEncode_length]; exact hr)
  have hD : (rowAt n d r).length = n := rowAt_length n d r hr
  apply ext_getD (by rw [tiffRow_length, hE, hD])
  intro j hj
  rw [tiffRow_length, hE] at hj
  rw [Nat.mul_succ] at hr
  induction j with
  | zero =>
    rw [tiffRow_getD_lt 1 _ 0 (by omega) (by omega), rowAt_getD n _ r 0 hj,
      rowAt_getD n _ r 0 hj, tiffEncode_getD n d _ (by omega)]
    simp
  | succ j ih =>
    rw [tiffRow_getD_ge 1 (le_refl _) _ (j + 1) (by omega) (by omega)]
    have e : j + 1 - 1 = j := rfl
    rw [e, ih (by omega), rowAt_getD n _ r (j + 1) hj, rowAt_getD n _ r (j + 1) hj,
      rowAt_getD n _ r j (by omega), tiffEncode_getD n d _ (by omega)]
    have hmod : (n * r + (j + 1)) % n ≠ 0 := by
      rw [Nat.mul_add_mod, Nat.mod_eq_of_lt hj]; omega
    rw [if_neg hmod]
    have e2 : n * r + (j + 1) - 1 = n * r + j := rfl
    rw [e2, addByte_subByte]

/-- C2: TIFF round trip with `Colors = 1`: for `Columns = n ≥ 1` and a buffer `d` whose
length is a multiple of `n`, reversing predictor 2 on the forward-differenced buffer
`tiffEncode n d` returns exactly `d`. -/
theorem tiff_round_trip (zlib : Zlib) (isWhiteSpace : Byte → Bool) (obj : PdfObjectStream)
    (parms : PdfObjectDictionary) (d : List Byte) (columns : PdfObjectInteger) (n : Nat)
    (hs : FlateStream zlib obj parms (tiffEncode n d)) (hp : HasPredictor parms 2)
    (hcol : asInteger (parms.get "Columns") = some columns)
    (hn : columns.val = (n : Int)) (hc : readColors parms = 1)
    (h1 : 1 ≤ n) (hlen : n ∣ d.length) :
    decodeStream zlib isWhiteSpace obj = .ok d := by
  have hmax : n ≤ 9223372036854775807 := by
    have := columns.property.2
    simp only [maxInt] at this
    omega
  obtain ⟨out, ho, hl, hr⟩ := tiff_reverse parms (tiffEncode n d) columns n 1 hcol hn
    (by simpa using hc) h1 (le_refl _) (by simpa using hmax)
    (by simpa [tiffEncode_length] using hlen)
  rw [decodeStream_flate zlib isWhiteSpace obj parms _ 2 hs hp]
  simp only [ne_eq, show ¬ ((2 : Int) = 1) by decide, not_false_eq_true, if_true, ho]
  congr 1
  rw [tiffEncode_length] at hl
  simp only [Nat.mul_one, tiffEncode_length] at hr
  have hd : d.length = n * (d.length / n) := (Nat.mul_div_cancel' hlen).symm
  apply eq_of_rowAt_eq n (d.length / n) (by omega) (by rw [hl]; exact hd) hd
  intro r hr'
  rw [hr r hr']
  apply tiffRow_one_encode
  calc n * (r + 1) ≤ n * (d.length / n) := Nat.mul_le_mul_left _ hr'
    _ ≤ d.length := Nat.mul_div_le _ _

/-- Witness of `tiff_round_trip`: two rows of four bytes. -/
theorem tiff_round_trip_witness :
    decodeStream storedZlib pdfWhiteSpace
        (flateObject tiffParms (tiffEncode 4 [1, 3, 6, 10, 250, 4, 4, 5]))
      = .ok [1, 3, 6, 10, 250, 4, 4, 5] :=
  tiff_round_trip storedZlib pdfWhiteSpace
    (flateObject tiffParms (tiffEncode 4 [1, 3, 6, 10, 250, 4, 4, 5])) tiffParms
    [1, 3, 6, 10, 250, 4, 4, 5] ⟨4, by decide⟩ 4 ⟨rfl, rfl, rfl, rfl⟩ ⟨rfl, Or.inl rfl⟩
    rfl rfl rfl (by decide) (by decide)

/-! ## PNG predictors: Up, Sub and None rows, locality, filter bytes -/

theorem mul_succ_le_of_lt_div (w len i : Nat) (h : i < len / w) : w * (i + 1) ≤ len :=
  le_trans (Nat.mul_le_mul_left w h) (Nat.mul_div_le _ _)

theorem rowAbove_length (n rows : Nat) (out : List Byte) (hl : out.length = n * rows) (i : Nat)
    (hi : i < rows) : (rowAbove n out i).length = n := by
  unfold rowAbove
  split
  · simp
  · apply rowAt_length
    rw [hl]
    exact Nat.mul_le_mul_left n (by omega)

theorem rowAt_take (k m r : Nat) (R : List Byte) (h : k * (r + 1) ≤ m) :
    rowAt k (R.take m) r = rowAt k R r := by
  rw [Nat.mul_succ] at h
  rw [rowAt, rowAt, List.drop_take, List.take_take, Nat.min_eq_left (by omega)]

theorem eq_flatMap_of_rowAt (k : Nat) (g : Nat → List Byte) :
    ∀ (rows : Nat) (R : List Byte), R.length = k * rows → (∀ r, r < rows → rowAt k R r = g r) →
      R = (List.range rows).flatMap g := by
  intro rows
  induction rows with
  | zero =>
    intro R hl _
    simpa using List.eq_nil_of_length_eq_zero (by simpa using hl)
  | succ rows ih =>
    intro R hl h
    rw [List.range_succ, List.flatMap_append, List.flatMap_singleton]
    have h1 : R.take (k * rows) = (List.range rows).flatMap g := by
      apply ih
      · rw [List.length_take, hl, Nat.mul_succ]; omega
      · intro r hr
        rw [rowAt_take k (k * rows) r R (Nat.mul_le_mul_left k hr)]
        exact h r (by omega)
    have h2 : R.drop (k * rows) = g rows := by
      rw [← h rows (by omega), rowAt, List.take_of_length_le]
      rw [List.length_drop, hl, Nat.mul_succ]; omega
    rw [← h1, ← h2, List.take_append_drop]

/-- C3: PNG Up rows. When a buffer decodes successfully under a PNG predictor with `Columns`
`n`, every data byte `k` of an output row `i` whose tag is 2 is the encoded data byte plus,
modulo 256, byte `k` of the row above in the output (`rowAbove`: the already reconstructed
row `i-1`, or zeros for `i = 0`); a first row tagged 2 is its encoded data bytes unchanged. -/
theorem png_up_rows (zlib : Zlib) (isWhiteSpace : Byte → Bool) (obj : PdfObjectStream)
    (parms : PdfObjectDictionary) (outData out : List Byte) (p : Int)
    (columns : PdfObjectInteger) (n : Nat)
    (hs : FlateStream zlib obj parms outData) (hp : HasPredictor parms p)
    (hp1 : 10 ≤ p) (hp2 : p ≤ 15) (hcol : asInteger (parms.get "Columns") = some columns)
    (hn : n = columns.val.toNat) (hok : decodeStream zlib isWhiteSpace obj = .ok out) :
    ∀ i, i < outData.length / (n + 1) → (rowAt (n + 1) outData i).getD 0 0 = 2 →
      (∀ k, k < n →
        ((rowAt n out i).getD k 0).val
          = (((rowAt (n + 1) outData i).getD (k + 1) 0).val
              + ((rowAbove n out i).getD k 0).val) % 256)
        ∧ (i = 0 → rowAt n out i = (rowAt (n + 1) outData i).drop 1) := by
  obtain ⟨hl, hr⟩ := png_decode_ok zlib isWhiteSpace obj parms outData out p columns n hs hp
    hp1 hp2 hcol hn hok
  intro i hi htag
  have hrl := rowAt_length (n + 1) outData i (mul_succ_le_of_lt_div _ _ _ hi)
  have hal := rowAbove_length n _ out hl i hi
  have hdl : ((rowAt (n + 1) outData i).drop 1).length = n := by
    rw [List.length_drop, hrl, Nat.add_sub_cancel]
  have hrow := (hr i hi).2
  rw [pngFull_drop_up _ _ htag (by omega)] at hrow
  constructor
  · intro k hk
    rw [hrow, zipWith_addByte_getD _ _ k (by omega) (by omega), addByte_val, getD_drop_one]
  · intro h0
    rw [hrow, rowAbove, if_pos h0]
    have := zipWith_addByte_zeros ((rowAt (n + 1) outData i).drop 1)
    rwa [hdl] at this

/-- Witness of `png_up_rows`: row 2 of `pngSample`, an Up row below a Sub row. -/
theorem png_up_rows_witness :
    (∀ k, k < 3 →
        ((rowAt 3 [1, 2, 3, 1, 2, 3, 2, 3, 4, 9, 9, 9] 2).getD k 0).val
          = (((rowAt (3 + 1) pngSample 2).getD (k + 1) 0).val
              + ((rowAbove 3 [1, 2, 3, 1, 2, 3, 2, 3, 4, 9, 9, 9] 2).getD k 0).val) % 256)
      ∧ (2 = 0 → rowAt 3 [1, 2, 3, 1, 2, 3, 2, 3, 4, 9, 9, 9] 2
          = (rowAt (3 + 1) pngSample 2).drop 1) :=
  png_up_rows storedZlib pdfWhiteSpace (flateObject pngParms pngSample) pngParms pngSample
    [1, 2, 3, 1, 2, 3, 2, 3, 4, 9, 9, 9] 12 ⟨3, by decide⟩ 3 ⟨rfl, rfl, rfl, rfl⟩
    ⟨rfl, Or.inl rfl⟩ (by decide) (by decide) rfl rfl (by decide) 2 (by decide) (by decide)

/-- C4: PNG Sub rows. When a buffer decodes successfully under a PNG predictor with
`Columns` `n`, an output row whose tag is 1 is the standard Sub reconstruction (one byte per
pixel, zero initial predecessor) of the row's encoded data bytes: its first data byte is the
encoded one unchanged and data byte `k` is the sum modulo 256 of the encoded data bytes
`0..k`. -/
theorem png_sub_rows (zlib : Zlib) (isWhiteSpace : Byte → Bool) (obj : PdfObjectStream)
    (parms : PdfObjectDictionary) (outData out : List Byte) (p : Int)
    (columns : PdfObjectInteger) (n : Nat)
    (hs : FlateStream zlib obj parms outData) (hp : HasPredictor parms p)
    (hp1 : 10 ≤ p) (hp2 : p ≤ 15) (hcol : asInteger (parms.get "Columns") = some columns)
    (hn : n = columns.val.toNat) (hok : decodeStream zlib isWhiteSpace obj = .ok out) :
    ∀ i, i < outData.length / (n + 1) → (rowAt (n + 1) outData i).getD 0 0 = 1 →
      rowAt n out i = standardSub ((rowAt (n + 1) outData i).drop 1)
        ∧ (rowAt n out i).getD 0 0 = (rowAt (n + 1) outData i).getD 1 0
        ∧ ∀ k, k < n →
          ((rowAt n out i).getD k 0).val
            = (Finset.sum (Finset.range (k + 1)) fun m =>
                ((rowAt (n + 1) outData i).getD (m + 1) 0).val) % 256 := by
  obtain ⟨-, hr⟩ := png_decode_ok zlib isWhiteSpace obj parms outData out p columns n hs hp
    hp1 hp2 hcol hn hok
  intro i hi htag
  have hrl := rowAt_length (n + 1) outData i (mul_succ_le_of_lt_div _ _ _ hi)
  have hdl : ((rowAt (n + 1) outData i).drop 1).length = n := by
    rw [List.length_drop, hrl, Nat.add_sub_cancel]
  have hrow := (hr i hi).2
  rw [pngFull_drop_sub _ _ htag] at hrow
  refine ⟨hrow, ?_, ?_⟩
  · rw [hrow, standardSub_getD_zero, getD_drop_one]
  · intro k hk
    rw [hrow, standardSub, standardSubFrom_getD_val _ 0 k (by omega)]
    simp only [getD_drop_one, Fin.val_zero, zero_add]

/-- Witness of `png_sub_rows`: row 1 of `pngSample`, a Sub row. -/
theorem png_sub_rows_witness :
    rowAt 3 [1, 2, 3, 1, 2, 3, 2, 3, 4, 9, 9, 9] 1
        = standardSub ((rowAt (3 + 1) pngSample 1).drop 1)
      ∧ (rowAt 3 [1, 2, 3, 1, 2, 3, 2, 3, 4, 9, 9, 9] 1).getD 0 0
        = (rowAt (3 + 1) pngSample 1).getD 1 0
      ∧ ∀ k, k < 3 →
        ((rowAt 3 [1, 2, 3, 1, 2, 3, 2, 3, 4, 9, 9, 9] 1).getD k 0).val
          = (Finset.sum (Finset.range (k + 1)) fun m =>
              ((rowAt (3 + 1) pngSample 1).getD (m + 1) 0).val) % 256 :=
  png_sub_rows storedZlib pdfWhiteSpace (flateObject pngParms pngSample) pngParms pngSample
    [1, 2, 3, 1, 2, 3, 2, 3, 4, 9, 9, 9] 12 ⟨3, by decide⟩ 3 ⟨rfl, rfl, rfl, rfl⟩
    ⟨rfl, Or.inl rfl⟩ (by decide) (by decide) rfl rfl (by decide) 1 (by decide) (by decide)

/-- C5: PNG None rows. When a buffer decodes successfully under a PNG predictor with
`Columns` `n`, the output row of every row tagged 0 is exactly that row's encoded bytes after
the tag byte, whatever the other rows contain; and if all rows are tagged 0 the output is the
input with the tag bytes removed. -/
theorem png_none_rows (zlib : Zlib) (isWhiteSpace : Byte → Bool) (obj : PdfObjectStream)
    (parms : PdfObjectDictionary) (outData out : List Byte) (p : Int)
    (columns : PdfObjectInteger) (n : Nat)
    (hs : FlateStream zlib obj parms outData) (hp : HasPredictor parms p)
    (hp1 : 10 ≤ p) (hp2 : p ≤ 15) (hcol : asInteger (parms.get "Columns") = some columns)
    (hn : n = columns.val.toNat) (hok : decodeStream zlib isWhiteSpace obj = .ok out) :
    (∀ i, i < outData.length / (n + 1) → (rowAt (n + 1) outData i).getD 0 0 = 0 →
        rowAt n out i = (rowAt (n + 1) outData i).drop 1)
      ∧ ((∀ i, i < outData.length / (n + 1) → (rowAt (n + 1) outData i).getD 0 0 = 0) →
        out = (List.range (outData.length / (n + 1))).flatMap fun i =>
          (rowAt (n + 1) outData i).drop 1) := by
  obtain ⟨hl, hr⟩ := png_decode_ok zlib isWhiteSpace obj parms outData out p columns n hs hp
    hp1 hp2 hcol hn hok
  have h1 : ∀ i, i < outData.length / (n + 1) → (rowAt (n + 1) outData i).getD 0 0 = 0 →
      rowAt n out i = (rowAt (n + 1) outData i).drop 1 := by
    intro i hi htag
    rw [(hr i hi).2, pngFull_drop_none _ _ htag]
  refine ⟨h1, fun hall => ?_⟩
  exact eq_flatMap_of_rowAt n _ _ out hl (fun r hr' => h1 r hr' (hall r hr'))

/-- Witness of `png_none_rows`: three rows tagged None. -/
theorem png_none_rows_witness :
    (∀ i, i < pngSampleNone.length / (3 + 1) → (rowAt (3 + 1) pngSampleNone i).getD 0 0 = 0 →
        rowAt 3 [1, 2, 3, 4, 5, 6, 7, 8, 9] i = (rowAt (3 + 1) pngSampleNone i).drop 1)
      ∧ ((∀ i, i < pngSampleNone.length / (3 + 1) →
          (rowAt (3 + 1) pngSampleNone i).getD 0 0 = 0) →
        [1, 2, 3, 4, 5, 6, 7, 8, 9]
          = (List.range (pngSampleNone.length / (3 + 1))).flatMap fun i =>
            (rowAt (3 + 1) pngSampleNone i).drop 1) :=
  png_none_rows storedZlib pdfWhiteSpace (flateObject pngParms pngSampleNone) pngParms
    pngSampleNone [1, 2, 3, 4, 5, 6, 7, 8, 9] 12 ⟨3, by decide⟩ 3 ⟨rfl, rfl, rfl, rfl⟩
    ⟨rfl, Or.inl rfl⟩ (by decide) (by decide) rfl rfl (by decide)

/-- C6: PNG row locality. For two buffers that both decode successfully under PNG predictors
with the same `Columns` `n` and have the same encoded row `i`: if the row's tag is 0 or 1,
output row `i` is the same in both runs whatever the other rows are; if its tag is 2, output
row `i` is the same as soon as the row above it in the output (`rowAbove`) is the same. -/
theorem png_row_locality (zlib₁ zlib₂ : Zlib) (ws₁ ws₂ : Byte → Bool)
    (obj₁ obj₂ : PdfObjectStream) (parms₁ parms₂ : PdfObjectDictionary)
    (d₁ d₂ out₁ out₂ : List Byte) (p₁ p₂ : Int) (columns : PdfObjectInteger) (n : Nat)
    (hs₁ : FlateStream zlib₁ obj₁ parms₁ d₁) (hs₂ : FlateStream zlib₂ obj₂ parms₂ d₂)
    (hp₁ : HasPredictor parms₁ p₁) (hp₂ : HasPredictor parms₂ p₂)
    (hr₁ : 10 ≤ p₁ ∧ p₁ ≤ 15) (hr₂ : 10 ≤ p₂ ∧ p₂ ≤ 15)
    (hcol₁ : asInteger (parms₁.get "Columns") = some columns)
    (hcol₂ : asInteger (parms₂.get "Columns") = some columns)
    (hn : n = columns.val.toNat)
    (hok₁ : decodeStream zlib₁ ws₁ obj₁ = .ok out₁)
    (hok₂ : decodeStream zlib₂ ws₂ obj₂ = .ok out₂)
    (i : Nat) (hi₁ : i < d₁.length / (n + 1)) (hi₂ : i < d₂.length / (n + 1))
    (hrow : rowAt (n + 1) d₁ i = rowAt (n + 1) d₂ i) :
    (((rowAt (n + 1) d₁ i).getD 0 0 = 0 ∨ (rowAt (n + 1) d₁ i).getD 0 0 = 1) →
        rowAt n out₁ i = rowAt n out₂ i)
      ∧ ((rowAt (n + 1) d₁ i).getD 0 0 = 2 → rowAbove n out₁ i = rowAbove n out₂ i →
        rowAt n out₁ i = rowAt n out₂ i) := by
  obtain ⟨-, g₁⟩ := png_decode_ok zlib₁ ws₁ obj₁ parms₁ d₁ out₁ p₁ columns n hs₁ hp₁
    hr₁.1 hr₁.2 hcol₁ hn hok₁
  obtain ⟨-, g₂⟩ := png_decode_ok zlib₂ ws₂ obj₂ parms₂ d₂ out₂ p₂ columns n hs₂ hp₂
    hr₂.1 hr₂.2 hcol₂ hn hok₂
  have e₁ := (g₁ i hi₁).2
  have e₂ := (g₂ i hi₂).2
  rw [← hrow] at e₂
  constructor
  · intro htag
    rcases htag with h | h
    · rw [e₁, e₂, pngFull_drop_none _ _ h, pngFull_drop_none _ _ h]
    · rw [e₁, e₂, pngFull_drop_sub _ _ h, pngFull_drop_sub _ _ h]
  · intro _ habove
    rw [e₁, e₂, habove]

/-- Witness of `png_row_locality`: `pngSample` and `pngSample2` differ in row 0 only, read
with predictors 12 and 15; row 1 is a Sub row. -/
theorem png_row_locality_witness :
    (((rowAt (3 + 1) pngSample 1).getD 0 0 = 0 ∨ (rowAt (3 + 1) pngSample 1).getD 0 0 = 1) →
        rowAt 3 [1, 2, 3, 1, 2, 3, 2, 3, 4, 9, 9, 9] 1
          = rowAt 3 [7, 7, 7, 1, 2, 3, 2, 3, 4, 9, 9, 9] 1)
      ∧ ((rowAt (3 + 1) pngSample 1).getD 0 0 = 2 →
        rowAbove 3 [1, 2, 3, 1, 2, 3, 2, 3, 4, 9, 9, 9] 1
          = rowAbove 3 [7, 7, 7, 1, 2, 3, 2, 3, 4, 9, 9, 9] 1 →
        rowAt 3 [1, 2, 3, 1, 2, 3, 2, 3, 4, 9, 9, 9] 1
          = rowAt 3 [7, 7, 7, 1, 2, 3, 2, 3, 4, 9, 9, 9] 1) :=
  png_row_locality storedZlib storedZlib pdfWhiteSpace pdfWhiteSpace
    (flateObject pngParms pngSample) (flateObject pngParms15 pngSample2) pngParms pngParms15
    pngSample pngSample2 [1, 2, 3, 1, 2, 3, 2, 3, 4, 9, 9, 9]
    [7, 7, 7, 1, 2, 3, 2, 3, 4, 9, 9, 9] 12 15 ⟨3, by decide⟩ 3 ⟨rfl, rfl, rfl, rfl⟩
    ⟨rfl, rfl, rfl, rfl⟩ ⟨rfl, Or.inl rfl⟩ ⟨rfl, Or.inl rfl⟩ (by decide) (by decide) rfl rfl rfl
    (by decide) (by decide) 1 (by decide) (by decide) (by decide)

/-- C7 (amended): PNG filter-byte validation. With a PNG predictor, `Columns = n ≥ 0` and a
non-empty decompressed buffer (a Go slice, so no longer than `maxAlloc`) whose length is a
multiple of `n + 1`: decoding fails with the `Invalid filter byte` error if and only if some
row's leading tag byte is `≥ 3`; the byte reported is the tag of the first such row and no
bytes are returned; and if no row has such a tag, decoding succeeds. -/
theorem png_filter_byte (zlib : Zlib) (isWhiteSpace : Byte → Bool) (obj : PdfObjectStream)
    (parms : PdfObjectDictionary) (outData : List Byte) (p : Int)
    (columns : PdfObjectInteger) (n : Nat)
    (hs : FlateStream zlib obj parms outData) (hp : HasPredictor parms p)
    (hp1 : 10 ≤ p) (hp2 : p ≤ 15) (hcol : asInteger (parms.get "Columns") = some columns)
    (hn : columns.val = (n : Int)) (hne : outData ≠ [])
    (hbuf : (outData.length : Int) ≤ maxAlloc)
    (hlen : (n + 1) ∣ outData.length) :
    ((∃ fb, decodeStream zlib isWhiteSpace obj = .error (.error (.invalidFilterByte fb)))
        ↔ ∃ r, r < outData.length / (n + 1) ∧ 3 ≤ ((rowAt (n + 1) outData r).getD 0 0).val)
      ∧ ((∃ r, r < outData.length / (n + 1) ∧ 3 ≤ ((rowAt (n + 1) outData r).getD 0 0).val) →
        ∃ r, r < outData.length / (n + 1) ∧ 3 ≤ ((rowAt (n + 1) outData r).getD 0 0).val
          ∧ (∀ r', r' < r → ((rowAt (n + 1) outData r').getD 0 0).val ≤ 2)
          ∧ decodeStream zlib isWhiteSpace obj
            = .error (.error (.invalidFilterByte ((rowAt (n + 1) outData r).getD 0 0))))
      ∧ ((∀ r, r < outData.length / (n + 1) →
          ((rowAt (n + 1) outData r).getD 0 0).val ≤ 2) →
        ∃ out, decodeStream zlib isWhiteSpace obj = .ok out) := by
  have hrow : n + 1 ≤ outData.length :=
    Nat.le_of_dvd (List.length_pos.2 hne) hlen
  have hmax : ((n + 1 : Nat) : Int) ≤ maxAlloc :=
    le_trans (by exact_mod_cast hrow) hbuf
  rw [decodeStream_png zlib isWhiteSpace obj parms outData p columns hs hp hp1 hp2 hcol,
    pngPredictor_eq columns.val n outData hn hmax hlen]
  have hle : (n + 1) * (0 + outData.length / (n + 1)) ≤ outData.length := by
    rw [Nat.zero_add]; exact Nat.mul_div_le _ _
  have hbad : (∃ r, r < outData.length / (n + 1)
        ∧ 3 ≤ ((rowAt (n + 1) outData r).getD 0 0).val) →
      ∃ r, r < outData.length / (n + 1) ∧ 3 ≤ ((rowAt (n + 1) outData r).getD 0 0).val
        ∧ (∀ r', r' < r → ((rowAt (n + 1) outData r').getD 0 0).val ≤ 2)
        ∧ pngRows ((n + 1 : Nat) : Int) (outData.length / (n + 1)) ((0 : Nat) : Int) outData
            (List.replicate (n + 1) 0) []
          = .error (.error (.invalidFilterByte ((rowAt (n + 1) outData r).getD 0 0))) := by
    rintro ⟨r, h1, h2⟩
    obtain ⟨r0, -, g2, g3, g4, g5⟩ := pngRows_invalid (n + 1) (by omega)
      (outData.length / (n + 1)) 0 outData (List.replicate (n + 1) 0) [] hle (by simp)
      ⟨r, Nat.zero_le _, by omega, by omega⟩
    exact ⟨r0, by omega, by omega, fun r' hr' => g4 r' (Nat.zero_le _) hr', g5⟩
  have hgood : (∀ r, r < outData.length / (n + 1) →
        ((rowAt (n + 1) outData r).getD 0 0).val ≤ 2) →
      ∃ out, pngRows ((n + 1 : Nat) : Int) (outData.length / (n + 1)) ((0 : Nat) : Int)
        outData (List.replicate (n + 1) 0) [] = .ok out := by
    intro hall
    exact pngRows_valid (n + 1) (by omega) (outData.length / (n + 1)) 0 outData
      (List.replicate (n + 1) 0) [] hle (by simp) (fun r _ h2 => hall r (by omega))
  refine ⟨⟨?_, ?_⟩, hbad, hgood⟩
  · rintro ⟨fb, hfb⟩
    by_contra hno
    obtain ⟨out, ho⟩ := hgood (fun r hr => by
      by_contra hgt
      exact hno ⟨r, hr, by omega⟩)
    rw [ho] at hfb
    cases hfb
  · intro hex
    obtain ⟨r, -, -, -, h⟩ := hbad hex
    exact ⟨_, h⟩

/-- Witness of `png_filter_byte`: the second row of `pngSampleBad` is tagged 3. -/
theorem png_filter_byte_witness :
    ((∃ fb, decodeStream storedZlib pdfWhiteSpace (flateObject pngParms pngSampleBad)
          = .error (.error (.invalidFilterByte fb)))
        ↔ ∃ r, r < pngSampleBad.length / (3 + 1)
          ∧ 3 ≤ ((rowAt (3 + 1) pngSampleBad r).getD 0 0).val)
      ∧ ((∃ r, r < pngSampleBad.length / (3 + 1)
          ∧ 3 ≤ ((rowAt (3 + 1) pngSampleBad r).getD 0 0).val) →
        ∃ r, r < pngSampleBad.length / (3 + 1)
          ∧ 3 ≤ ((rowAt (3 + 1) pngSampleBad r).getD 0 0).val
          ∧ (∀ r', r' < r → ((rowAt (3 + 1) pngSampleBad r').getD 0 0).val ≤ 2)
          ∧ decodeStream storedZlib pdfWhiteSpace (flateObject pngParms pngSampleBad)
            = .error (.error (.invalidFilterByte ((rowAt (3 + 1) pngSampleBad r).getD 0 0))))
      ∧ ((∀ r, r < pngSampleBad.length / (3 + 1) →
          ((rowAt (3 + 1) pngSampleBad r).getD 0 0).val ≤ 2) →
        ∃ out, decodeStream storedZlib pdfWhiteSpace (flateObject pngParms pngSampleBad)
          = .ok out) :=
  png_filter_byte storedZlib pdfWhiteSpace (flateObject pngParms pngSampleBad) pngParms
    pngSampleBad 12 ⟨3, by decide⟩ 3 ⟨rfl, rfl, rfl, rfl⟩ ⟨rfl, Or.inl rfl⟩ (by decide)
    (by decide) rfl rfl (by decide) (by decide) (by decide)

/-- C7 (as stated) fails on the empty buffer, whose length is a multiple of every
`Columns + 1` and which has no row at all. At `Columns = 2^63 - 1` the sum `Columns + 1`
wraps to a negative `rowLength`, and at `Columns = 2^62` the row length is above the
allocation limit: in both cases `make([]byte, rowLength)` panics, so decoding neither
succeeds nor returns the `Invalid filter byte` error. -/
theorem png_filter_byte_counterexample :
    FlateStream storedZlib (flateObject pngParmsMax []) pngParmsMax []
      ∧ HasPredictor pngParmsMax 12
      ∧ (asInteger (pngParmsMax.get "Columns")).map Subtype.val = some 9223372036854775807
      ∧ (9223372036854775807 + 1 : Int) ∣ (([] : List Byte).length : Int)
      ∧ (∀ r, r < ([] : List Byte).length / (9223372036854775807 + 1) →
          ((rowAt (9223372036854775807 + 1) [] r).getD 0 0).val ≤ 2)
      ∧ decodeStream storedZlib pdfWhiteSpace (flateObject pngParmsMax [])
          = .error (.panic .makeNegativeLen)
      ∧ (¬ ∃ out, decodeStream storedZlib pdfWhiteSpace (flateObject pngParmsMax [])
          = .ok out)
      ∧ FlateStream storedZlib (flateObject pngParmsHuge []) pngParmsHuge []
      ∧ HasPredictor pngParmsHuge 12
      ∧ (asInteger (pngParmsHuge.get "Columns")).map Subtype.val = some 4611686018427387904
      ∧ (4611686018427387904 + 1 : Int) ∣ (([] : List Byte).length : Int)
      ∧ decodeStream storedZlib pdfWhiteSpace (flateObject pngParmsHuge [])
          = .error (.panic .makeLenTooLarge)
      ∧ ¬ ∃ out, decodeStream storedZlib pdfWhiteSpace (flateObject pngParmsHuge [])
          = .ok out :=
  ⟨⟨rfl, rfl, rfl, rfl⟩, ⟨rfl, Or.inl rfl⟩, rfl, by decide,
    fun r hr => absurd hr (by simp), by decide,
    (fun ⟨_, h⟩ => by
      rw [show decodeStream storedZlib pdfWhiteSpace (flateObject pngParmsMax [])
        = .error (.panic .makeNegativeLen) by decide] at h
      cases h),
    ⟨rfl, rfl, rfl, rfl⟩, ⟨rfl, Or.inl rfl⟩, rfl, by decide, by decide,
    fun ⟨_, h⟩ => by
      rw [show decodeStream storedZlib pdfWhiteSpace (flateObject pngParmsHuge [])
        = .error (.panic .makeLenTooLarge) by decide] at h
      cases h⟩

/-- C8: exact row partition. With predictor 2 (`rowLength` computed as `Columns*Colors`) or
a PNG predictor 10..15 (`rowLength` computed as `Columns+1`): whenever the computed row
length is positive and does not divide the decompressed length, `decodeStream` returns the
`Invalid row length` error for that length and row length, and no bytes. -/
theorem invalid_row_length (zlib : Zlib) (isWhiteSpace : Byte → Bool) (obj : PdfObjectStream)
    (parms : PdfObjectDictionary) (outData : List Byte) (p : Int)
    (columns : PdfObjectInteger) (rowLength : Int)
    (hs : FlateStream zlib obj parms outData) (hp : HasPredictor parms p)
    (hcol : asInteger (parms.get "Columns") = some columns)
    (hrl : (p = 2 ∧ rowLength = wrapInt (columns.val * readColors parms))
      ∨ (10 ≤ p ∧ p ≤ 15 ∧ rowLength = wrapInt (columns.val + 1)))
    (hpos : 0 < rowLength) (hnd : ¬ rowLength ∣ (outData.length : Int)) :
    decodeStream zlib isWhiteSpace obj
      = .error (.error (.invalidRowLength outData.length rowLength)) := by
  have hz : ¬ rowLength = 0 := by omega
  have hm : ¬ Int.tmod (outData.length : Int) rowLength = 0 := by
    rw [Int.tmod_eq_emod (by omega) (by omega)]
    exact fun h => hnd (Int.dvd_of_emod_eq_zero h)
  rcases hrl with ⟨h2, hr⟩ | ⟨h10, h15, hr⟩
  · subst h2
    rw [decodeStream_flate zlib isWhiteSpace obj parms outData 2 hs hp]
    simp only [ne_eq, show ¬ ((2 : Int) = 1) by decide, not_false_eq_true, if_true,
      reversePredictor, hcol, tiffPredictor, ← hr, hz, hm, if_false]
  · rw [decodeStream_png zlib isWhiteSpace obj parms outData p columns hs hp h10 h15 hcol]
    simp only [pngPredictor, ← hr, hz, hm, if_false, ne_eq, not_false_eq_true, if_true]

/-- Witness of `invalid_row_length`: `Columns` 4, one colour, five decompressed bytes. -/
theorem invalid_row_length_witness :
    decodeStream storedZlib pdfWhiteSpace (flateObject tiffParms [1, 2, 3, 4, 5])
      = .error (.error (.invalidRowLength ([1, 2, 3, 4, 5] : List Byte).length 4)) :=
  invalid_row_length storedZlib pdfWhiteSpace (flateObject tiffParms [1, 2, 3, 4, 5]) tiffParms
    [1, 2, 3, 4, 5] 2 ⟨4, by decide⟩ 4 ⟨rfl, rfl, rfl, rfl⟩ ⟨rfl, Or.inl rfl⟩ rfl
    (Or.inl ⟨rfl, by decide⟩) (by decide) (by decide)

/-! ## ASCIIHexDecode: result and failures -/

theorem beforeTerminator_append (pre post : List Byte) (h : ∀ b ∈ pre, b.val ≠ 62) :
    beforeTerminator (pre ++ 62 :: post) = pre := by
  have h62 : ((62 : Byte).val) = 62 := rfl
  induction pre with
  | nil => simp [beforeTerminator, h62]
  | cons b pre ih =>
    have hb : b.val ≠ 62 := h b (by simp)
    have := ih (fun x hx => h x (by simp [hx]))
    simp only [beforeTerminator] at this ⊢
    simp [List.takeWhile_cons, hb, this]

theorem asciiHexDecode_of_valid (ws : Byte → Bool) (s : List Byte)
    (hbad : (beforeTerminator s).find? (isInvalidHexByte ws) = none)
    (h62 : s.any (fun b => b.val == 62) = true) :
    asciiHexDecode ws s
      = .ok (decodePairs (padOdd ((beforeTerminator s).filter fun b => !ws b))) := by
  apply asciiHexDecode_ok
  · rw [hexRead_eq, hbad]
    simp only [h62, if_true, List.nil_append]
  · intro b hb
    rw [List.mem_filter] at hb
    have := List.find?_eq_none.1 hbad b hb.1
    simp only [isInvalidHexByte, Bool.and_eq_true, Bool.not_eq_true', not_and,
      Bool.not_eq_false] at this
    by_contra hd
    have hw := this (by simpa using hd)
    have := hb.2
    simp [hw] at this

set_option maxRecDepth 100000 in
theorem pdfWhiteSpace_not_hexDigit :
    ∀ b : Byte, isHexDigit b = true → pdfWhiteSpace b = false := by
  decide

theorem hex_sample_valid : ∀ b ∈ ([49, 65, 50, 66] : List Byte),
    b.val ≠ 62 ∧ (isHexDigit b = true ∨ pdfWhiteSpace b = true) := by
  intro b hb
  simp only [List.mem_cons, List.mem_singleton, List.not_mem_nil, or_false] at hb
  rcases hb with rfl | rfl | rfl | rfl <;> decide

/-- C9: ASCIIHexDecode result. For a stream `pre ++ '>' :: post` in which no byte of `pre`
is `>` and every byte of `pre` is a hex digit or white space (`isWhiteSpace`, which holds of
no hex digit), `decodeStream` succeeds and returns the hex digits of `pre` in order, padded
with one `0` if their number is odd and decoded pairwise, high nibble first, in either case;
the output has `ceil(n/2)` bytes for `n` digits, the bytes `post` after the first `>` do not
matter, and the error of `hex.Decode` is never returned. -/
theorem hex_decode_result (zlib : Zlib) (isWhiteSpace : Byte → Bool) (obj : PdfObjectStream)
    (pre post : List Byte)
    (hF : asName (obj.PdfObjectDictionary.get "Filter") = some "ASCIIHexDecode")
    (hws : ∀ b, isHexDigit b = true → isWhiteSpace b = false)
    (hstream : obj.Stream = pre ++ 62 :: post)
    (hpre : ∀ b ∈ pre, b.val ≠ 62 ∧ (isHexDigit b = true ∨ isWhiteSpace b = true)) :
    decodeStream zlib isWhiteSpace obj = .ok (decodePairs (padOdd (pre.filter isHexDigit)))
      ∧ (decodePairs (padOdd (pre.filter isHexDigit))).length
        = ((pre.filter isHexDigit).length + 1) / 2
      ∧ (∀ post', decodeStream zlib isWhiteSpace ⟨obj.PdfObjectDictionary, pre ++ 62 :: post'⟩
        = decodeStream zlib isWhiteSpace obj)
      ∧ ∀ e, decodeStream zlib isWhiteSpace obj ≠ .error (.error (.hex e)) := by
  have hfilter : (pre.filter fun b => !isWhiteSpace b) = pre.filter isHexDigit := by
    apply List.filter_congr
    intro b hb
    rcases (hpre b hb).2 with h | h
    · simp [h, hws b h]
    · have hd : isHexDigit b = false := by
        by_contra hd
        have := hws b (by simpa using hd)
        rw [h] at this
        cases this
      simp [h, hd]
  have key : ∀ post', asciiHexDecode isWhiteSpace (pre ++ 62 :: post')
      = .ok (decodePairs (padOdd (pre.filter isHexDigit))) := by
    intro post'
    have hbt := beforeTerminator_append pre post' (fun b hb => (hpre b hb).1)
    rw [asciiHexDecode_of_valid isWhiteSpace (pre ++ 62 :: post'), hbt, hfilter]
    · rw [hbt, List.find?_eq_none]
      intro b hb
      rcases (hpre b hb).2 with h | h
      · simp [isInvalidHexByte, h]
      · simp [isInvalidHexByte, h]
    · have h62 : ((62 : Byte).val) = 62 := rfl
      simp [h62]
  have hres : decodeStream zlib isWhiteSpace obj
      = .ok (decodePairs (padOdd (pre.filter isHexDigit))) := by
    rw [decodeStream_hex zlib isWhiteSpace obj hF, hstream, key post]
  refine ⟨hres, decodePairs_padOdd_length _, ?_, ?_⟩
  · intro post'
    rw [hres]
    exact (decodeStream_hex zlib isWhiteSpace ⟨obj.PdfObjectDictionary, pre ++ 62 :: post'⟩
      hF).trans (key post')
  · intro e he
    rw [hres] at he
    cases he

/-- Witness of `hex_decode_result`: `1A2B>` gives the bytes `1A 2B`, and `1A2>` followed by
`G` gives `1A 20`. -/
theorem hex_decode_result_witness :
    decodeStream storedZlib pdfWhiteSpace (hexObject [49, 65, 50, 66, 62]) = .ok [0x1A, 0x2B]
      ∧ decodeStream storedZlib pdfWhiteSpace (hexObject [49, 65, 50, 62, 71])
        = .ok [0x1A, 0x20] :=
  ⟨(hex_decode_result storedZlib pdfWhiteSpace (hexObject [49, 65, 50, 66, 62])
      [49, 65, 50, 66] [] rfl pdfWhiteSpace_not_hexDigit rfl hex_sample_valid).1,
    (hex_decode_result storedZlib pdfWhiteSpace (hexObject [49, 65, 50, 62, 71])
      [49, 65, 50] [71] rfl pdfWhiteSpace_not_hexDigit rfl
      (fun b hb => hex_sample_valid b (List.mem_of_mem_take (show b ∈ List.take 3 _ from hb)))).1⟩

/-- C10: ASCIIHexDecode failures. Let `pre` be the bytes before the first `>` (all bytes if
there is none). If `pre` has a byte that is neither a hex digit nor white space, the result
is the `Invalid ascii hex character` error naming the first such byte; if it has none and
the stream has no `>`, the result is the end-of-input error; and if it has none and the
stream has a `>`, decoding succeeds. An error carries no bytes. -/
theorem hex_decode_failure (zlib : Zlib) (isWhiteSpace : Byte → Bool) (obj : PdfObjectStream)
    (hF : asName (obj.PdfObjectDictionary.get "Filter") = some "ASCIIHexDecode") :
    (∀ b, (beforeTerminator obj.Stream).find? (isInvalidHexByte isWhiteSpace) = some b →
        decodeStream zlib isWhiteSpace obj = .error (.error (.invalidAsciiHexCharacter b)))
      ∧ ((beforeTerminator obj.Stream).find? (isInvalidHexByte isWhiteSpace) = none →
        (∀ b ∈ obj.Stream, b.val ≠ 62) →
        decodeStream zlib isWhiteSpace obj = .error (.error .eof))
      ∧ ((beforeTerminator obj.Stream).find? (isInvalidHexByte isWhiteSpace) = none →
        (∃ b ∈ obj.Stream, b.val = 62) →
        ∃ out, decodeStream zlib isWhiteSpace obj = .ok out) := by
  rw [decodeStream_hex zlib isWhiteSpace obj hF]
  refine ⟨?_, ?_, ?_⟩
  · intro b hb
    simp only [asciiHexDecode, hexRead_eq, hb]
  · intro hnone hno
    have hany : obj.Stream.any (fun b => b.val == 62) = false := by
      rw [List.any_eq_false]
      intro b hb
      simpa using hno b hb
    simp only [asciiHexDecode, hexRead_eq, hnone, hany]
    rfl
  · intro hnone hex
    have hany : obj.Stream.any (fun b => b.val == 62) = true := by
      rw [List.any_eq_true]
      obtain ⟨b, hb, h⟩ := hex
      exact ⟨b, hb, by simpa using h⟩
    exact ⟨_, asciiHexDecode_of_valid isWhiteSpace obj.Stream hnone hany⟩

/-- Witness of `hex_decode_failure`: the unterminated stream `1A2B`. -/
theorem hex_decode_failure_witness :
    (∀ b, (beforeTerminator (hexObject [49, 65, 50, 66]).Stream).find?
          (isInvalidHexByte pdfWhiteSpace) = some b →
        decodeStream storedZlib pdfWhiteSpace (hexObject [49, 65, 50, 66])
          = .error (.error (.invalidAsciiHexCharacter b)))
      ∧ ((beforeTerminator (hexObject [49, 65, 50, 66]).Stream).find?
          (isInvalidHexByte pdfWhiteSpace) = none →
        (∀ b ∈ (hexObject [49, 65, 50, 66]).Stream, b.val ≠ 62) →
        decodeStream storedZlib pdfWhiteSpace (hexObject [49, 65, 50, 66])
          = .error (.error .eof))
      ∧ ((beforeTerminator (hexObject [49, 65, 50, 66]).Stream).find?
          (isInvalidHexByte pdfWhiteSpace) = none →
        (∃ b ∈ (hexObject [49, 65, 50, 66]).Stream, b.val = 62) →
        ∃ out, decodeStream storedZlib pdfWhiteSpace (hexObject [49, 65, 50, 66]) = .ok out) :=
  hex_decode_failure storedZlib pdfWhiteSpace (hexObject [49, 65, 50, 66]) rfl

/-! ## FlateDecode: no predictor, predictor 1, bit depth -/

/-- C11: Flate without predictor. For a FlateDecode stream dictionary with no `DecodeParms`
dictionary, whenever the stream bytes pass the zlib header check and the body read yields
`outData` without error, `decodeStream` returns exactly `outData`; hence for every `compress`
that zlib inverts, decoding `compress d` returns `d`, for every `d` including the empty one. -/
theorem flate_no_predictor (zlib : Zlib) (isWhiteSpace : Byte → Bool)
    (dict : PdfObjectDictionary)
    (hF : asName (dict.get "Filter") = some "FlateDecode")
    (hno : asDictionary (dict.get "DecodeParms") = none) :
    (∀ stream outData, zlib.newReader stream = none → zlib.readFrom stream = (outData, none) →
        decodeStream zlib isWhiteSpace ⟨dict, stream⟩ = .ok outData)
      ∧ (∀ compress : List Byte → List Byte,
          (∀ d, zlib.newReader (compress d) = none ∧ zlib.readFrom (compress d) = (d, none)) →
          ∀ d, decodeStream zlib isWhiteSpace ⟨dict, compress d⟩ = .ok d) := by
  have key : ∀ stream outData, zlib.newReader stream = none →
      zlib.readFrom stream = (outData, none) →
      decodeStream zlib isWhiteSpace ⟨dict, stream⟩ = .ok outData := by
    intro stream outData h1 h2
    simp only [decodeStream, hF, if_true, flateDecode, hno, h1, h2]
  exact ⟨key, fun compress hc d => key (compress d) d (hc d).1 (hc d).2⟩

/-- Witness of `flate_no_predictor`: the stand-in zlib that stores streams as they are. -/
theorem flate_no_predictor_witness :
    (∀ stream outData, storedZlib.newReader stream = none →
        storedZlib.readFrom stream = (outData, none) →
        decodeStream storedZlib pdfWhiteSpace ⟨[("Filter", .Name "FlateDecode")], stream⟩
          = .ok outData)
      ∧ (∀ compress : List Byte → List Byte,
          (∀ d, storedZlib.newReader (compress d) = none
            ∧ storedZlib.readFrom (compress d) = (d, none)) →
          ∀ d, decodeStream storedZlib pdfWhiteSpace
            ⟨[("Filter", .Name "FlateDecode")], compress d⟩ = .ok d) :=
  flate_no_predictor storedZlib pdfWhiteSpace [("Filter", .Name "FlateDecode")] rfl rfl

/-- C12 (amended): Predictor 1 is a no-op. For a FlateDecode stream whose bytes decompress
to `outData` and whose `DecodeParms` has `Predictor` 1 and `BitsPerComponent` absent or 8,
`decodeStream` returns `outData` unchanged, whatever `Columns` and `Colors` are. -/
theorem predictor_one_noop (zlib : Zlib) (isWhiteSpace : Byte → Bool) (obj : PdfObjectStream)
    (parms : PdfObjectDictionary) (outData : List Byte)
    (hs : FlateStream zlib obj parms outData) (hp : HasPredictor parms 1) :
    decodeStream zlib isWhiteSpace obj = .ok outData := by
  rw [decodeStream_flate zlib isWhiteSpace obj parms outData 1 hs hp]
  simp

/-- Witness of `predictor_one_noop`: `Predictor 1` with `Columns 0` and `Colors 0`. -/
theorem predictor_one_noop_witness :
    decodeStream storedZlib pdfWhiteSpace (flateObject predictor1Parms [1, 2, 3])
      = .ok [1, 2, 3] :=
  predictor_one_noop storedZlib pdfWhiteSpace (flateObject predictor1Parms [1, 2, 3])
    predictor1Parms [1, 2, 3] ⟨rfl, rfl, rfl, rfl⟩ ⟨rfl, Or.inr rfl⟩

/-- C12 (as stated) fails: with `Predictor 1` and `BitsPerComponent 4` the stream
decompresses, but `decodeStream` returns the `only 8 bits` error and not the bytes. -/
theorem predictor_one_noop_counterexample :
    asName ((flateObject predictor1Bits4 [1, 2, 3]).PdfObjectDictionary.get "Filter")
        = some "FlateDecode"
      ∧ (asInteger (predictor1Bits4.get "Predictor")).map Subtype.val = some 1
      ∧ storedZlib.newReader [1, 2, 3] = none
      ∧ storedZlib.readFrom [1, 2, 3] = ([1, 2, 3], none)
      ∧ decodeStream storedZlib pdfWhiteSpace (flateObject predictor1Bits4 [1, 2, 3])
          = .error (.error .only8BitsSupported)
      ∧ decodeStream storedZlib pdfWhiteSpace (flateObject predictor1Bits4 [1, 2, 3])
          ≠ .ok [1, 2, 3] :=
  ⟨rfl, rfl, rfl, rfl, by decide, by decide⟩

/-- C15: unsupported bit depth. For a FlateDecode stream whose `DecodeParms` has an integer
`Predictor` and an integer `BitsPerComponent` other than 8, `decodeStream` returns the
`only 8 bits` error and no bytes, for every zlib behaviour, every content of the stream and
every other entry of the parameters: the check comes before decompression. -/
theorem unsupported_bits (zlib : Zlib) (isWhiteSpace : Byte → Bool) (obj : PdfObjectStream)
    (parms : PdfObjectDictionary) (p b : PdfObjectInteger)
    (hF : asName (obj.PdfObjectDictionary.get "Filter") = some "FlateDecode")
    (hD : asDictionary (obj.PdfObjectDictionary.get "DecodeParms") = some parms)
    (hp : asInteger (parms.get "Predictor") = some p)
    (hb : asInteger (parms.get "BitsPerComponent") = some b) (hne : b.val ≠ 8) :
    (∀ stream, decodeStream zlib isWhiteSpace ⟨obj.PdfObjectDictionary, stream⟩
        = .error (.error .only8BitsSupported))
      ∧ decodeStream zlib isWhiteSpace obj = .error (.error .only8BitsSupported) := by
  have hr : readPredictor parms = .error (.error .only8BitsSupported) := by
    unfold readPredictor
    rw [hp]
    cases ho : parms.get "BitsPerComponent" with
    | none => rw [ho] at hb; cases hb
    | some o =>
      rw [ho] at hb
      simp only [hb, hne, ne_eq, not_false_eq_true, if_true]
  have key : ∀ stream, decodeStream zlib isWhiteSpace ⟨obj.PdfObjectDictionary, stream⟩
      = .error (.error .only8BitsSupported) := by
    intro stream
    simp only [decodeStream, hF, if_true, flateDecode, hD, hr]
  exact ⟨key, key obj.Stream⟩

/-- Witness of `unsupported_bits`: `Predictor 12`, `Columns 3`, `BitsPerComponent 4`. -/
theorem unsupported_bits_witness :
    (∀ stream, decodeStream checksumZlib pdfWhiteSpace
        ⟨(flateObject pngParmsBits4 pngSample).PdfObjectDictionary, stream⟩
        = .error (.error .only8BitsSupported))
      ∧ decodeStream checksumZlib pdfWhiteSpace (flateObject pngParmsBits4 pngSample)
        = .error (.error .only8BitsSupported) :=
  unsupported_bits checksumZlib pdfWhiteSpace (flateObject pngParmsBits4 pngSample)
    pngParmsBits4 ⟨12, by decide⟩ ⟨4, by decide⟩ rfl rfl rfl rfl (by decide)

/-! ## Unchecked type assertions and the ignored read error -/

theorem predictor_not_integer_panics (zlib : Zlib) (isWhiteSpace : Byte → Bool)
    (obj : PdfObjectStream) (parms : PdfObjectDictionary)
    (hF : asName (obj.PdfObjectDictionary.get "Filter") = some "FlateDecode")
    (hD : asDictionary (obj.PdfObjectDictionary.get "DecodeParms") = some parms)
    (hp : asInteger (parms.get "Predictor") = none) :
    decodeStream zlib isWhiteSpace obj = .error (.panic .typeAssertion) := by
  simp only [decodeStream, hF, if_true, flateDecode, hD, readPredictor, hp]

/-- C13 (the code at the failing inputs): with a `DecodeParms` dictionary that has no
`Predictor` entry, or one that is a name, `decodeStream` does not return the decompressed
bytes: the unchecked type assertion on `Predictor` panics. -/
theorem predictor_default_panics :
    decodeStream storedZlib pdfWhiteSpace (flateObject parmsNoPredictor [1, 2, 3])
        = .error (.panic .typeAssertion)
      ∧ decodeStream storedZlib pdfWhiteSpace (flateObject parmsPredictorName [1, 2, 3])
        = .error (.panic .typeAssertion) :=
  ⟨predictor_not_integer_panics storedZlib pdfWhiteSpace _ parmsNoPredictor rfl rfl rfl,
    predictor_not_integer_panics storedZlib pdfWhiteSpace _ parmsPredictorName rfl rfl rfl⟩

theorem filter_not_name_panics (zlib : Zlib) (isWhiteSpace : Byte → Bool)
    (obj : PdfObjectStream) (hF : asName (obj.PdfObjectDictionary.get "Filter") = none) :
    decodeStream zlib isWhiteSpace obj = .error (.panic .typeAssertion) := by
  simp only [decodeStream, hF]

theorem filter_other_name (zlib : Zlib) (isWhiteSpace : Byte → Bool) (obj : PdfObjectStream)
    (method : String) (hF : asName (obj.PdfObjectDictionary.get "Filter") = some method)
    (h1 : method ≠ "FlateDecode") (h2 : method ≠ "ASCIIHexDecode") :
    decodeStream zlib isWhiteSpace obj = .error (.error .unsupportedEncodingMethod) := by
  simp only [decodeStream, hF, h1, h2, if_false]

/-- C14 (the code at the failing inputs): for a stream dictionary without a `Filter` entry,
or with a `Filter` that is an integer, `decodeStream` does not return the `Unsupported
encoding method` error: the unchecked type assertion on `Filter` panics. A `Filter` that is
another name does give that error. -/
theorem unsupported_filter_panics :
    decodeStream storedZlib pdfWhiteSpace ⟨[], [1, 2, 3]⟩ = .error (.panic .typeAssertion)
      ∧ decodeStream storedZlib pdfWhiteSpace
          ⟨[("Filter", .Integer ⟨1, by decide⟩)], [1, 2, 3]⟩
        = .error (.panic .typeAssertion)
      ∧ decodeStream storedZlib pdfWhiteSpace ⟨[("Filter", .Name "LZWDecode")], [1, 2, 3]⟩
        = .error (.error .unsupportedEncodingMethod) :=
  ⟨filter_not_name_panics storedZlib pdfWhiteSpace _ rfl,
    filter_not_name_panics storedZlib pdfWhiteSpace _ rfl,
    filter_other_name storedZlib pdfWhiteSpace _ "LZWDecode" rfl (by decide) (by decide)⟩

theorem flate_header_error (zlib : Zlib) (isWhiteSpace : Byte → Bool) (obj : PdfObjectStream)
    (e : ZlibError)
    (hF : asName (obj.PdfObjectDictionary.get "Filter") = some "FlateDecode")
    (hno : asDictionary (obj.PdfObjectDictionary.get "DecodeParms") = none)
    (hz : zlib.newReader obj.Stream = some e) :
    decodeStream zlib isWhiteSpace obj = .error (.error (.zlib e)) := by
  simp only [decodeStream, hF, if_true, flateDecode, hno, hz]

theorem flate_body_error_ignored (zlib : Zlib) (isWhiteSpace : Byte → Bool)
    (obj : PdfObjectStream) (sofar : List Byte) (e : ZlibError)
    (hF : asName (obj.PdfObjectDictionary.get "Filter") = some "FlateDecode")
    (hno : asDictionary (obj.PdfObjectDictionary.get "DecodeParms") = none)
    (hz : zlib.newReader obj.Stream = none)
    (hr : zlib.readFrom obj.Stream = (sofar, some e)) :
    decodeStream zlib isWhiteSpace obj = .ok sofar := by
  simp only [decodeStream, hF, if_true, flateDecode, hno, hz, hr]

/-- C16 (the code at the failing input): when the header check passes and the body read
stops with an error after yielding some bytes, `decodeStream` returns those bytes as a
success: the error of `outBuf.ReadFrom(r)` is dropped. -/
theorem body_error_returns_bytes :
    checksumZlib.newReader [1, 2, 3] = none
      ∧ checksumZlib.readFrom [1, 2, 3] = ([1, 2, 3], some .checksum)
      ∧ decodeStream checksumZlib pdfWhiteSpace (plainFlateObject [1, 2, 3]) = .ok [1, 2, 3] :=
  ⟨rfl, rfl,
    flate_body_error_ignored checksumZlib pdfWhiteSpace (plainFlateObject [1, 2, 3]) [1, 2, 3]
      .checksum rfl rfl rfl rfl⟩

/-! ## Row lengths that are not positive -/

/-- C17 (the code at the failing input): with `Predictor 2` and `Columns -1` the row
length is `-1`, the length check passes, no row is processed, and `decodeStream` returns
successfully with an empty output for a buffer of three bytes. -/
theorem tiff_negative_columns_truncates :
    decodeStream storedZlib pdfWhiteSpace (flateObject tiffParmsNeg [1, 2, 3]) = .ok []
      ∧ ([] : List Byte).length ≠ ([1, 2, 3] : List Byte).length :=
  ⟨by decide, by decide⟩

/-- C19 (the code at the failing inputs): predictor-active decoding panics on a zero row
length (`Columns 0` for TIFF, `Columns -1` for PNG: division by zero), on a negative PNG row
length (`Columns -2`: `make` with a negative length), and on negative `Colors` with a
positive row length (`Columns -2`, `Colors -1`: index `-1`). -/
theorem predictor_panics :
    decodeStream storedZlib pdfWhiteSpace (flateObject tiffParmsZero [1, 2, 3])
        = .error (.panic .divideByZero)
      ∧ decodeStream storedZlib pdfWhiteSpace (flateObject pngParmsNeg1 [1, 2, 3])
        = .error (.panic .divideByZero)
      ∧ decodeStream storedZlib pdfWhiteSpace (flateObject pngParmsNeg2 [1, 2, 3])
        = .error (.panic .makeNegativeLen)
      ∧ decodeStream storedZlib pdfWhiteSpace (flateObject tiffParmsNegColors [1, 2, 3, 4])
        = .error (.panic .indexOutOfRange) :=
  ⟨by decide, by decide, by decide, by decide⟩

/-! ## Output lengths -/

theorem leftLoop_length (d : Int) : ∀ (n : Nat) (j : Int) (row r : List Byte),
    leftLoop d n j row = .ok r → r.length = row.length := by
  intro n
  induction n with
  | zero =>
    intro j row r h
    simp only [leftLoop, Except.ok.injEq] at h
    rw [h]
  | succ n ih =>
    intro j row r h
    unfold leftLoop at h
    split at h
    · have := ih _ _ _ h
      simpa using this
    · cases h

theorem tiffRows_length (w : Nat) (colors : Int) :
    ∀ (n i : Nat) (outData pOut R : List Byte), w * (i + n) ≤ outData.length →
      tiffRows (w : Int) colors n (i : Int) outData pOut = .ok R →
      R.length = pOut.length + w * n := by
  intro n
  induction n with
  | zero =>
    intro i outData pOut R _ h
    simp only [tiffRows, Except.ok.injEq] at h
    rw [← h]; simp
  | succ n ih =>
    intro i outData pOut R hlen h
    have hrow : w * (i + 1) ≤ outData.length :=
      le_trans (Nat.mul_le_mul_left w (by omega)) hlen
    have hl := rowAt_length w outData i hrow
    have ei : ((i : Int) + 1) = ((i + 1 : Nat) : Int) := by push_cast; ring
    have em : ((w : Int) * (i : Int)).toNat = w * i := by
      rw [← Int.natCast_mul, Int.toNat_natCast]
    simp only [tiffRows, slice_eq_rowAt w outData i hrow] at h
    split at h
    · cases h
    · rename_i r' hr'
      have hl' : r'.length = w := by rw [leftLoop_length _ _ _ _ _ hr', hl]
      rw [em, ei] at h
      have := ih (i + 1) _ _ R
        (by
          rw [writeBack_length _ _ _ (by rw [hl', ← Nat.mul_succ]; exact hrow)]
          exact le_of_eq_of_le (by ring_nf) hlen) h
      rw [this, List.length_append, hl', Nat.mul_succ]
      omega

/-- When the computed row length is positive, a successful TIFF decode has an output as
long as the decompressed buffer. -/
theorem tiff_length_of_positive (zlib : Zlib) (isWhiteSpace : Byte → Bool)
    (obj : PdfObjectStream) (parms : PdfObjectDictionary) (outData out : List Byte)
    (columns : PdfObjectInteger)
    (hs : FlateStream zlib obj parms outData) (hp : HasPredictor parms 2)
    (hcol : asInteger (parms.get "Columns") = some columns)
    (hpos : 0 < wrapInt (columns.val * readColors parms))
    (hok : decodeStream zlib isWhiteSpace obj = .ok out) :
    out.length = outData.length := by
  rw [decodeStream_flate zlib isWhiteSpace obj parms outData 2 hs hp] at hok
  simp only [ne_eq, show ¬ ((2 : Int) = 1) by decide, not_false_eq_true, if_true,
    reversePredictor, hcol, tiffPredictor] at hok
  generalize hrl : wrapInt (columns.val * readColors parms) = rl at hok hpos
  obtain ⟨w, rfl⟩ : ∃ w : Nat, rl = (w : Int) := ⟨rl.toNat, by omega⟩
  split at hok
  · cases hok
  · split at hok
    · cases hok
    · rename_i hm
      split at hok
      · cases hok
      · split at hok
        · cases hok
        · rw [tdiv_natCast] at hok
          rw [tmod_natCast] at hm
          simp only [not_not] at hm
          have hdvd : w ∣ outData.length := Nat.dvd_of_mod_eq_zero (by exact_mod_cast hm)
          have := tiffRows_length w _ (outData.length / w) 0 outData [] out
            (by rw [Nat.zero_add]; exact Nat.mul_div_le _ _) (by simpa using hok)
          rw [this, Nat.mul_div_cancel' hdvd]
          simp

/-- C18: PNG output length. Whenever decoding under a PNG predictor succeeds, `Columns` is
a natural number `n`, and the output has `rows * n` bytes for
`rows = len(outData) / (Columns + 1)`: one tag byte per row is removed and nothing else. -/
theorem png_output_length (zlib : Zlib) (isWhiteSpace : Byte → Bool) (obj : PdfObjectStream)
    (parms : PdfObjectDictionary) (outData out : List Byte) (p : Int)
    (columns : PdfObjectInteger) (n : Nat)
    (hs : FlateStream zlib obj parms outData) (hp : HasPredictor parms p)
    (hp1 : 10 ≤ p) (hp2 : p ≤ 15) (hcol : asInteger (parms.get "Columns") = some columns)
    (hn : n = columns.val.toNat) (hok : decodeStream zlib isWhiteSpace obj = .ok out) :
    columns.val = (n : Int)
      ∧ out.length = (outData.length / (n + 1)) * n
      ∧ (out.length : Int) = Int.tdiv (outData.length : Int) (columns.val + 1) * columns.val
      ∧ out.length + outData.length / (n + 1) = outData.length := by
  obtain ⟨hl, -⟩ := png_decode_ok zlib isWhiteSpace obj parms outData out p columns n hs hp
    hp1 hp2 hcol hn hok
  rw [decodeStream_png zlib isWhiteSpace obj parms outData p columns hs hp hp1 hp2 hcol] at hok
  obtain ⟨e1, -, e3⟩ := pngPredictor_ok_inv columns outData out hok
  rw [← hn] at e1 e3
  have hl' : out.length = (outData.length / (n + 1)) * n := by rw [hl, Nat.mul_comm]
  refine ⟨e1, hl', ?_, ?_⟩
  · have e : columns.val + 1 = ((n + 1 : Nat) : Int) := by rw [e1]; push_cast; rfl
    have ht : Int.tdiv (outData.length : Int) ((n + 1 : Nat) : Int)
        = ((outData.length / (n + 1) : Nat) : Int) := by
      rw [Int.tdiv_eq_ediv (by omega) (by omega)]
      push_cast; rfl
    rw [e, ht, e1, hl']
    push_cast; rfl
  · have := Nat.div_mul_cancel e3
    rw [hl']
    rw [Nat.mul_succ] at this
    omega

/-- Witness of `png_output_length`: the four rows of `pngSample`, twelve bytes out of
sixteen. -/
theorem png_output_length_witness :
    ((⟨3, by decide⟩ : PdfObjectInteger).val = ((3 : Nat) : Int))
      ∧ ([1, 2, 3, 1, 2, 3, 2, 3, 4, 9, 9, 9] : List Byte).length
        = (pngSample.length / (3 + 1)) * 3
      ∧ ((([1, 2, 3, 1, 2, 3, 2, 3, 4, 9, 9, 9] : List Byte).length : Nat) : Int)
        = Int.tdiv (pngSample.length : Int)
            ((⟨3, by decide⟩ : PdfObjectInteger).val + 1)
          * (⟨3, by decide⟩ : PdfObjectInteger).val
      ∧ ([1, 2, 3, 1, 2, 3, 2, 3, 4, 9, 9, 9] : List Byte).length + pngSample.length / (3 + 1)
        = pngSample.length :=
  png_output_length storedZlib pdfWhiteSpace (flateObject pngParms pngSample) pngParms pngSample
    [1, 2, 3, 1, 2, 3, 2, 3, 4, 9, 9, 9] 12 ⟨3, by decide⟩ 3 ⟨rfl, rfl, rfl, rfl⟩
    ⟨rfl, Or.inl rfl⟩ (by decide) (by decide) rfl rfl (by decide)

/-! ## Predictor dispatch -/

theorem tiffRows_not_error (rowLength colors : Int) :
    ∀ (n : Nat) (i : Int) (outData pOut : List Byte) (e : DecodeError),
      tiffRows rowLength colors n i outData pOut ≠ .error (.error e) := by
  intro n
  induction n with
  | zero => intro i outData pOut e h; simp [tiffRows] at h
  | succ n ih =>
    intro i outData pOut e h
    unfold tiffRows at h
    split at h
    · cases h
    · split at h
      · cases h
      · exact ih _ _ _ _ h

theorem pngFilter_error (rowLength : Int) (prev row : List Byte) (fb : Byte) (e : DecodeError)
    (h : pngFilter rowLength prev row fb = .error (.error e)) : e = .invalidFilterByte fb := by
  unfold pngFilter at h
  split at h
  · cases h
  · split at h
    · split at h
      · cases h
      · cases h
    · split at h
      · split at h
        · cases h
        · cases h
      · cases h
        rfl

theorem pngRows_error (rowLength : Int) :
    ∀ (n : Nat) (i : Int) (outData prev pOut : List Byte) (e : DecodeError),
      pngRows rowLength n i outData prev pOut = .error (.error e) →
      ∃ fb, e = .invalidFilterByte fb := by
  intro n
  induction n with
  | zero => intro i outData prev pOut e h; simp [pngRows] at h
  | succ n ih =>
    intro i outData prev pOut e h
    unfold pngRows at h
    split at h
    · cases h
    · split at h
      · cases h
      · rename_i fb _
        split at h
        · rename_i f hf
          cases h
          exact ⟨fb, pngFilter_error _ _ _ _ _ hf⟩
        · split at h
          · cases h
          · split at h
            · cases h
            · exact ih _ _ _ _ _ h

theorem reversePredictor_unsupported (parms : PdfObjectDictionary) (p q : Int)
    (outData : List Byte)
    (h : reversePredictor parms p outData = .error (.error (.unsupportedPredictor q))) :
    p ≠ 2 ∧ ¬ (10 ≤ p ∧ p ≤ 15) := by
  unfold reversePredictor at h
  split at h
  · split at h
    · cases h
    · exfalso
      unfold tiffPredictor at h
      simp only [ne_eq] at h
      split at h
      · cases h
      · split at h
        · cases h
        · split at h
          · cases h
          · split at h
            · cases h
            · exact tiffRows_not_error _ _ _ _ _ _ _ h
  · rename_i h2
    split at h
    · exfalso
      split at h
      · cases h
      · unfold pngPredictor at h
        simp only [ne_eq] at h
        split at h
        · cases h
        · split at h
          · cases h
          · split at h
            · cases h
            · split at h
              · cases h
              · obtain ⟨fb, hfb⟩ := pngRows_error _ _ _ _ _ _ _ h
                cases hfb
    · rename_i h10
      exact ⟨h2, h10⟩

/-- C20: predictor dispatch. For a FlateDecode stream that decompresses to `outData` and
whose `DecodeParms` has the integer `Predictor` `p` (`BitsPerComponent` absent or 8),
`decodeStream` returns an `Unsupported predictor` error if and only if `p` is not 1, not 2
and not in 10..15, and the error then names `p`; and two such streams with the same
decompressed bytes and the same `Columns` entry, with predictors `p` and `q` both in 10..15,
have the same result. -/
theorem predictor_dispatch (zlib : Zlib) (isWhiteSpace : Byte → Bool) (obj : PdfObjectStream)
    (parms : PdfObjectDictionary) (outData : List Byte) (p : Int)
    (hs : FlateStream zlib obj parms outData) (hp : HasPredictor parms p) :
    ((∃ q, decodeStream zlib isWhiteSpace obj = .error (.error (.unsupportedPredictor q)))
        ↔ (p ≠ 1 ∧ p ≠ 2 ∧ ¬ (10 ≤ p ∧ p ≤ 15)))
      ∧ ((p ≠ 1 ∧ p ≠ 2 ∧ ¬ (10 ≤ p ∧ p ≤ 15)) →
        decodeStream zlib isWhiteSpace obj = .error (.error (.unsupportedPredictor p)))
      ∧ (∀ (zlib' : Zlib) (ws' : Byte → Bool) (obj' : PdfObjectStream)
          (parms' : PdfObjectDictionary) (q : Int),
          FlateStream zlib' obj' parms' outData → HasPredictor parms' q →
          (10 ≤ p ∧ p ≤ 15) → (10 ≤ q ∧ q ≤ 15) →
          asInteger (parms'.get "Columns") = asInteger (parms.get "Columns") →
          decodeStream zlib' ws' obj' = decodeStream zlib isWhiteSpace obj) := by
  have hd := decodeStream_flate zlib isWhiteSpace obj parms outData p hs hp
  have hbad : (p ≠ 1 ∧ p ≠ 2 ∧ ¬ (10 ≤ p ∧ p ≤ 15)) →
      decodeStream zlib isWhiteSpace obj = .error (.error (.unsupportedPredictor p)) := by
    rintro ⟨h1, h2, h3⟩
    rw [hd, if_pos h1]
    simp only [reversePredictor, h2, h3, if_false]
  refine ⟨⟨?_, fun h => ⟨p, hbad h⟩⟩, hbad, ?_⟩
  · rintro ⟨q, hq⟩
    rw [hd] at hq
    by_cases h1 : p = 1
    · rw [if_neg (by simpa using h1)] at hq
      cases hq
    · rw [if_pos h1] at hq
      obtain ⟨h2, h3⟩ := reversePredictor_unsupported parms p q outData hq
      exact ⟨h1, h2, h3⟩
  · intro zlib' ws' obj' parms' q hs' hq hpr hqr hcols
    rw [hd, decodeStream_flate zlib' ws' obj' parms' outData q hs' hq,
      if_pos (show p ≠ 1 by omega), if_pos (show q ≠ 1 by omega)]
    have hp2 : ¬ p = 2 := by omega
    have hq2 : ¬ q = 2 := by omega
    simp only [reversePredictor, hp2, hq2, if_false, hpr, hqr, and_self, if_true, hcols]

/-- Witness of `predictor_dispatch`: `Predictor 3` is unsupported. -/
theorem predictor_dispatch_witness :
    ((∃ q, decodeStream storedZlib pdfWhiteSpace (flateObject parmsPredictor3 pngSample)
          = .error (.error (.unsupportedPredictor q)))
        ↔ ((3 : Int) ≠ 1 ∧ (3 : Int) ≠ 2 ∧ ¬ (10 ≤ (3 : Int) ∧ (3 : Int) ≤ 15)))
      ∧ (((3 : Int) ≠ 1 ∧ (3 : Int) ≠ 2 ∧ ¬ (10 ≤ (3 : Int) ∧ (3 : Int) ≤ 15)) →
        decodeStream storedZlib pdfWhiteSpace (flateObject parmsPredictor3 pngSample)
          = .error (.error (.unsupportedPredictor 3)))
      ∧ (∀ (zlib' : Zlib) (ws' : Byte → Bool) (obj' : PdfObjectStream)
          (parms' : PdfObjectDictionary) (q : Int),
          FlateStream zlib' obj' parms' pngSample → HasPredictor parms' q →
          (10 ≤ (3 : Int) ∧ (3 : Int) ≤ 15) → (10 ≤ q ∧ q ≤ 15) →
          asInteger (parms'.get "Columns") = asInteger (parmsPredictor3.get "Columns") →
          decodeStream zlib' ws' obj'
            = decodeStream storedZlib pdfWhiteSpace (flateObject parmsPredictor3 pngSample)) :=
  predictor_dispatch storedZlib pdfWhiteSpace (flateObject parmsPredictor3 pngSample)
    parmsPredictor3 pngSample 3 ⟨rfl, rfl, rfl, rfl⟩ ⟨rfl, Or.inl rfl⟩

/-! ## Where predictor reversal cannot panic -/

theorem tiffPredictor_total (columns colors : Int) (outData : List Byte)
    (hpos : 0 < wrapInt (columns * colors)) (hc : 0 < colors) (pn : Panic) :
    tiffPredictor columns colors outData ≠ .error (.panic pn) := by
  intro h
  unfold tiffPredictor at h
  simp only [ne_eq] at h
  generalize wrapInt (columns * colors) = rl at h hpos
  obtain ⟨w, rfl⟩ : ∃ w : Nat, rl = (w : Int) := ⟨rl.toNat, by omega⟩
  obtain ⟨c, rfl⟩ : ∃ c : Nat, colors = (c : Int) := ⟨colors.toNat, by omega⟩
  split at h
  · omega
  · split at h
    · cases h
    · rename_i hm
      split at h
      · omega
      · split at h
        · cases h
        · rw [tmod_natCast] at hm
          simp only [not_not] at hm
          rw [tdiv_natCast] at h
          obtain ⟨R, hR, -⟩ := tiffRows_spec w c (by omega) (outData.length / w) 0 outData []
            (by rw [Nat.zero_add]; exact Nat.mul_div_le _ _) (by simp)
          simp only [Nat.cast_zero] at hR
          rw [hR] at h
          cases h

theorem pngPredictor_total (columns : Int) (outData : List Byte)
    (hpos : 0 < wrapInt (columns + 1)) (hmax : wrapInt (columns + 1) ≤ maxAlloc)
    (pn : Panic) :
    pngPredictor columns outData ≠ .error (.panic pn) := by
  intro h
  unfold pngPredictor at h
  simp only [ne_eq] at h
  generalize wrapInt (columns + 1) = rl at h hpos hmax
  obtain ⟨w, rfl⟩ : ∃ w : Nat, rl = (w : Int) := ⟨rl.toNat, by omega⟩
  split at h
  · omega
  · split at h
    · cases h
    · split at h
      · omega
      · split at h
        · rename_i hbig
          exact absurd hmax (not_le.2 hbig)
        · rw [tdiv_natCast, Int.toNat_natCast] at h
          have hle : w * (0 + outData.length / w) ≤ outData.length := by
            rw [Nat.zero_add]; exact Nat.mul_div_le _ _
          by_cases hall : ∀ r, 0 ≤ r → r < 0 + outData.length / w →
              ((rowAt w outData r).getD 0 0).val ≤ 2
          · obtain ⟨R, hR⟩ := pngRows_valid w (by omega) (outData.length / w) 0 outData
              (List.replicate w 0) [] hle (by simp) hall
            simp only [Nat.cast_zero] at hR
            rw [hR] at h
            cases h
          · have hex : ∃ r, 0 ≤ r ∧ r < 0 + outData.length / w
                ∧ ¬ ((rowAt w outData r).getD 0 0).val ≤ 2 := by
              by_contra hno
              apply hall
              intro r h1 h2
              by_contra hgt
              exact hno ⟨r, h1, h2, hgt⟩
            obtain ⟨r, -, -, -, -, hR⟩ := pngRows_invalid w (by omega) (outData.length / w) 0
              outData (List.replicate w 0) [] hle (by simp) hex
            simp only [Nat.cast_zero] at hR
            rw [hR] at h
            cases h

/-- When the computed row length is positive (and, for TIFF, `Colors` is positive; for PNG,
the row length is within the allocation limit), predictor reversal ends in bytes or in an
error value, never in a panic. -/
theorem predictor_total_of_positive (zlib : Zlib) (isWhiteSpace : Byte → Bool)
    (obj : PdfObjectStream) (parms : PdfObjectDictionary) (outData : List Byte) (p : Int)
    (columns : PdfObjectInteger)
    (hs : FlateStream zlib obj parms outData) (hp : HasPredictor parms p)
    (hcol : asInteger (parms.get "Columns") = some columns)
    (hrl : (p = 2 ∧ 0 < wrapInt (columns.val * readColors parms) ∧ 0 < readColors parms)
      ∨ (10 ≤ p ∧ p ≤ 15 ∧ 0 < wrapInt (columns.val + 1)
        ∧ wrapInt (columns.val + 1) ≤ maxAlloc))
    (pn : Panic) :
    decodeStream zlib isWhiteSpace obj ≠ .error (.panic pn) := by
  rcases hrl with ⟨h2, hpos, hc⟩ | ⟨h10, h15, hpos, hmax⟩
  · subst h2
    rw [decodeStream_flate zlib isWhiteSpace obj parms outData 2 hs hp]
    simp only [ne_eq, show ¬ ((2 : Int) = 1) by decide, not_false_eq_true, if_true,
      reversePredictor, hcol]
    exact tiffPredictor_total _ _ _ hpos hc pn
  · rw [decodeStream_png zlib isWhiteSpace obj parms outData p columns hs hp h10 h15 hcol]
    exact pngPredictor_total _ _ hpos hmax pn

/-! ## Where the `Unsupported encoding method` error comes from -/

theorem reversePredictor_ne_method (parms : PdfObjectDictionary) (p : Int)
    (outData : List Byte) :
    reversePredictor parms p outData ≠ .error (.error .unsupportedEncodingMethod) := by
  intro h
  unfold reversePredictor at h
  split at h
  · split at h
    · cases h
    · unfold tiffPredictor at h
      simp only [ne_eq] at h
      split at h
      · cases h
      · split at h
        · cases h
        · split at h
          · cases h
          · split at h
            · cases h
            · exact tiffRows_not_error _ _ _ _ _ _ _ h
  · split at h
    · split at h
      · cases h
      · unfold pngPredictor at h
        simp only [ne_eq] at h
        split at h
        · cases h
        · split at h
          · cases h
          · split at h
            · cases h
            · split at h
              · cases h
              · obtain ⟨fb, hfb⟩ := pngRows_error _ _ _ _ _ _ _ h
                cases hfb
    · cases h

theorem readPredictor_ne_method (parms : PdfObjectDictionary) :
    readPredictor parms ≠ .error (.error .unsupportedEncodingMethod) := by
  intro h
  unfold readPredictor at h
  split at h
  · cases h
  · split at h
    · cases h
    · split at h
      · cases h
      · split at h
        · cases h
        · cases h

theorem flateDecode_ne_method (zlib : Zlib) (obj : PdfObjectStream) :
    flateDecode zlib obj ≠ .error (.error .unsupportedEncodingMethod) := by
  intro h
  unfold flateDecode at h
  simp only at h
  cases hd : asDictionary (obj.PdfObjectDictionary.get "DecodeParms") with
  | none =>
    rw [hd] at h
    simp only at h
    split at h
    · cases h
    · cases h
  | some d =>
    rw [hd] at h
    simp only at h
    split at h
    · rename_i f hf
      cases h
      exact readPredictor_ne_method d hf
    · split at h
      · cases h
      · split at h
        · exact reversePredictor_ne_method _ _ _ h
        · cases h

theorem hexRead_ne_method (ws : Byte → Bool) : ∀ (s inb : List Byte),
    hexRead ws s inb ≠ .error .unsupportedEncodingMethod := by
  intro s
  induction s with
  | nil => intro inb h; cases h
  | cons b rest ih =>
    intro inb h
    unfold hexRead at h
    split at h
    · cases h
    · split at h
      · exact ih _ h
      · split at h
        · exact ih _ h
        · cases h

theorem asciiHexDecode_ne_method (ws : Byte → Bool) (s : List Byte) :
    asciiHexDecode ws s ≠ .error (.error .unsupportedEncodingMethod) := by
  intro h
  unfold asciiHexDecode at h
  split at h
  · rename_i e he
    cases h
    exact hexRead_ne_method ws s [] he
  · simp only at h
    split at h
    · cases h
    · cases h

/-- The `Unsupported encoding method` error is returned exactly when `Filter` is a name other
than `FlateDecode` and `ASCIIHexDecode`. -/
theorem unsupported_method_iff (zlib : Zlib) (isWhiteSpace : Byte → Bool)
    (obj : PdfObjectStream) :
    decodeStream zlib isWhiteSpace obj = .error (.error .unsupportedEncodingMethod)
      ↔ ∃ method, asName (obj.PdfObjectDictionary.get "Filter") = some method
        ∧ method ≠ "FlateDecode" ∧ method ≠ "ASCIIHexDecode" := by
  constructor
  · intro h
    unfold decodeStream at h
    split at h
    · cases h
    · rename_i method hm
      refine ⟨method, hm, ?_, ?_⟩
      · intro e
        rw [if_pos e] at h
        exact flateDecode_ne_method zlib obj h
      · intro e
        by_cases e1 : method = "FlateDecode"
        · rw [if_pos e1] at h
          exact flateDecode_ne_method zlib obj h
        · rw [if_neg e1, if_pos e] at h
          exact asciiHexDecode_ne_method isWhiteSpace obj.Stream h
  · rintro ⟨method, hm, h1, h2⟩
    exact filter_other_name zlib isWhiteSpace obj method hm h1 h2

end Pdf
